import Mathlib

/-!
Verification of the OS161 virtual-memory subsystem (frame allocator,
two-level page table / address space manager, TLB-miss fault handler).

The development shallowly embeds the C sources:
  * the frame allocator (frametable_bootstrap, getppages, alloc_kpages,
    freeppages, free_kpages),
  * the address-space operations (as_create, as_copy, as_define_region,
    as_prepare_load, as_complete_load, as_define_stack),
  * the fault handler (vm_fault) together with the TLB refill scan.

Machine integers are modelled as Nat.  All addresses in the kernel are
32-bit; where a C bitwise operation is used on an address the embedding
keeps the bitwise form (&&&, |||, >>>, <<<) and separate lemmas relate it
to arithmetic under the 32-bit bound.  Memory is modelled page-keyed:
`mem : Nat → Nat → Nat` maps a page's kernel-virtual base address and an
offset to the stored value; page-table slots live at offsets 4*i of their
table's page, frame contents at byte offsets.  This is faithful because
the code only ever forms pointers as a page base obtained from the
allocator (or the page-table root) plus an in-page offset.

Kernel panics that depend on runtime state (failed KASSERTs inside
as_copy and vm_fault) are modelled by the `KR.kpanic` result; panics
that only guard boot-time configuration (frametable_bootstrap) and the
KASSERT(addr >= MIPS_KSEG0) in free_kpages are modelled as preconditions
stated as hypotheses of the theorems.
-/

/-- Size of one page / frame in bytes (4 KiB). -/
def PAGE_SIZE : Nat := 4096

/-- Number of entries of each page-table level (1024 slots per frame). -/
def PTE_NUM : Nat := 1024

/-- Mask keeping the page-frame part of a 32-bit address (0xfffff000). -/
def PAGE_FRAME : Nat := 0xfffff000

/-- Mask for the top ten bits of a virtual address (0xffc00000). -/
def TOP_TEN : Nat := 0xffc00000

/-- Mask for the middle ten bits of a virtual address (0x003ff000). -/
def MID_TEN : Nat := 0x3ff000

/-- Modelled from the spec: the low valid bit of a level-2 page-table
entry ("a physical frame address with a low valid bit set"); the header
defining PTE_VALID is not in src, we use bit 0 which sits inside the
page-offset bits masked off by PAGE_FRAME. -/
def PTE_VALID : Nat := 1

/-- Base of the kernel-mapped segment MIPS_KSEG0 (0x80000000); the MIPS
headers are not in src, this is the architectural constant. -/
def KSEG0 : Nat := 0x80000000

/-- ELF segment permission bit: readable (PF_R = 4, from elf.h). -/
def PF_R : Nat := 4

/-- ELF segment permission bit: writable (PF_W = 2, from elf.h). -/
def PF_W : Nat := 2

/-- ELF segment permission bit: executable (PF_X = 1, from elf.h). -/
def PF_X : Nat := 1

/-- Top of the user stack; USERSTACK is not defined in src, this is the
OS161 constant USERSPACETOP = MIPS_KSEG0. -/
def USERSTACK : Nat := 0x80000000

/-- Modelled from the spec: the number of pages of the fixed-size stack
window ("a fixed-size window directly below the stack-top constant");
the constant VM_STACKPAGES is not defined in src, its exact value does
not matter to any claim, we use 16. -/
def VM_STACKPAGES : Nat := 16

/-- Number of hardware TLB slots (MIPS r3000: 64); machine/tlb.h is not
in src. -/
def NUM_TLB : Nat := 64

/-- TLB entry-lo valid bit (0x200, MIPS). -/
def TLBLO_VALID : Nat := 0x200

/-- TLB entry-lo dirty (write-enable) bit (0x400, MIPS). -/
def TLBLO_DIRTY : Nat := 0x400

/-- Fault kind: read miss (vm.h constant VM_FAULT_READ). -/
def VM_FAULT_READ : Nat := 0

/-- Fault kind: write miss (vm.h constant VM_FAULT_WRITE). -/
def VM_FAULT_WRITE : Nat := 1

/-- Fault kind: write to a read-only page (vm.h VM_FAULT_READONLY). -/
def VM_FAULT_READONLY : Nat := 2

/-- Error code ENOMEM (kern/errno.h is not in src; the exact numeric
values play no role, the codes are distinct and nonzero). -/
def ENOMEM : Nat := 2

/-- Error code EFAULT (kern/errno.h is not in src). -/
def EFAULT : Nat := 5

/-- Error code EINVAL (kern/errno.h is not in src). -/
def EINVAL : Nat := 7

/-- Translation from a physical address to its kernel-virtual address:
PADDR_TO_KVADDR(p) = p + MIPS_KSEG0. -/
def PADDR_TO_KVADDR (p : Nat) : Nat := p + KSEG0

/-- Translation from a kernel-virtual address back to the physical one:
KVADDR_TO_PADDR(v) = v - MIPS_KSEG0. -/
def KVADDR_TO_PADDR (v : Nat) : Nat := v - KSEG0

/-- The C expression `v & PAGE_FRAME` (clear the low 12 bits). -/
def pageFrame (v : Nat) : Nat := v &&& PAGE_FRAME

/-- The C expression `(v & TOP_TEN) >> 22` (level-1 page-table index). -/
def idx1 (v : Nat) : Nat := (v &&& TOP_TEN) >>> 22

/-- The C expression `(v & MID_TEN) >> 12` (level-2 page-table index). -/
def idx2 (v : Nat) : Nat := (v &&& MID_TEN) >>> 12

/-- State of the frame allocator (vm.c): the frame table (one
next-free-frame word per frame, indexed by frame number), the physical
address `frametop` of the start of usable memory (where the frame table
itself is kept) and the physical address `freeframe` of the head of the
free list (0 = exhausted).  The frame-table words live in the reserved
region at the start of physical memory, disjoint from every allocatable
frame, so keeping them as a separate field is faithful. -/
structure FrameState where
  table : Nat → Nat
  frametop : Nat
  freeframe : Nat

/-- The os161 macro ROUNDUP(a, s) = round a up to a multiple of s. -/
def ROUNDUP (a s : Nat) : Nat := (a + s - 1) / s * s

/-- Frame number of the frame with physical address f, as computed by
getppages/freeppages: (f - frametop) / PAGE_SIZE. -/
def frameIndex (ftop f : Nat) : Nat := (f - ftop) / PAGE_SIZE

/-- frametable_bootstrap: given the usable physical range [firsta,lasta)
(from ram_getsize) and the pre-existing contents `mem0` of the
(uninitialised) frame-table words, build the allocator state.  The init
loop runs for i < framenum - 1 and therefore never writes the word of
the last frame, which keeps its pre-existing value `mem0 (framenum-1)`.
The KASSERTs on page alignment and the panic when the frame map would
consume all memory are modelled by `frametable_bootstrap_ok` used as a
precondition. -/
def frametable_bootstrap (firsta lasta : Nat) (mem0 : Nat → Nat) : FrameState :=
  let framenum := (lasta - firsta) / PAGE_SIZE
  let frame_table_size := ROUNDUP (framenum * 4) PAGE_SIZE
  let entry_num := frame_table_size / PAGE_SIZE
  { frametop := firsta
    freeframe := firsta + frame_table_size
    table := fun i =>
      if i < framenum - 1 then
        if i < entry_num then 0 else firsta + (i + 1) * PAGE_SIZE
      else mem0 i }

/-- The conditions under which frametable_bootstrap completes without a
failed KASSERT or the "framemap consume physical memory" panic. -/
def frametable_bootstrap_ok (firsta lasta : Nat) : Prop :=
  firsta % PAGE_SIZE = 0 ∧ lasta % PAGE_SIZE = 0 ∧
  firsta + ROUNDUP ((lasta - firsta) / PAGE_SIZE * 4) PAGE_SIZE < lasta

instance (a b : Nat) : Decidable (frametable_bootstrap_ok a b) :=
  inferInstanceAs (Decidable (_ ∧ _ ∧ _))

/-- getppages, post-bootstrap path (the pre-bootstrap branch delegates
to ram_stealmem, which is outside this module; every claim concerns the
state after frametable_bootstrap).  Returns the physical address of the
allocated frame, 0 on failure. -/
def getppages (npages : Nat) (fs : FrameState) : Nat × FrameState :=
  if 1 < npages then (0, fs)
  else if fs.freeframe = 0 then (0, fs)
  else
    let paddr := fs.freeframe
    let i := frameIndex fs.frametop fs.freeframe
    (paddr,
      { fs with
        freeframe := fs.table i
        table := fun j => if j = i then 0 else fs.table j })

/-- alloc_kpages: allocate and translate to a kernel-virtual address,
0 on failure. -/
def alloc_kpages (npages : Nat) (fs : FrameState) : Nat × FrameState :=
  let r := getppages npages fs
  if r.1 = 0 then (0, r.2) else (PADDR_TO_KVADDR r.1, r.2)

/-- freeppages: push the frame back at the head of the free list. -/
def freeppages (paddr : Nat) (fs : FrameState) : FrameState :=
  let i := frameIndex fs.frametop paddr
  { fs with
    table := fun j => if j = i then fs.freeframe else fs.table j
    freeframe := paddr }

/-- free_kpages: translate back to a physical address; addresses at or
below frametop are silently leaked.  The KASSERT(addr >= MIPS_KSEG0) is
modelled as a precondition of the theorems. -/
def free_kpages (addr : Nat) (fs : FrameState) : FrameState :=
  let paddr := KVADDR_TO_PADDR addr
  if paddr ≤ fs.frametop then fs else freeppages paddr fs

/-- Allocate n single frames in sequence with getppages(1), collecting
the returned physical addresses. -/
def allocSeq : Nat → FrameState → List Nat × FrameState
  | 0, fs => ([], fs)
  | n + 1, fs =>
    let r := getppages 1 fs
    let rest := allocSeq n r.2
    (r.1 :: rest.1, rest.2)

/-- The free list of the allocator spelled out: `chain tbl ftop h fl`
says that starting from head pointer h the next-free words of the frame
table link together exactly the frames of fl, ending in the 0
terminator. -/
def chain (tbl : Nat → Nat) (ftop : Nat) : Nat → List Nat → Prop
  | h, [] => h = 0
  | h, f :: rest => h = f ∧ chain tbl ftop (tbl (frameIndex ftop f)) rest

instance chainDec (tbl : Nat → Nat) (ftop : Nat) :
    ∀ (h : Nat) (l : List Nat), Decidable (chain tbl ftop h l)
  | h, [] => inferInstanceAs (Decidable (h = 0))
  | _, _ :: rest =>
    @instDecidableAnd _ _ _ (chainDec tbl ftop _ rest)

/-- Well-formed free list: the head chains through exactly the frames
of fl, no duplicates, frametop is page-aligned, and every free frame is
page-aligned, above the frame table, and below KSEG0 (a 32-bit physical
address in the kernel-mapped window). -/
def GoodFrees (fs : FrameState) (fl : List Nat) : Prop :=
  chain fs.table fs.frametop fs.freeframe fl ∧ fl.Nodup ∧
  fs.frametop % PAGE_SIZE = 0 ∧
  ∀ f ∈ fl, f % PAGE_SIZE = 0 ∧ fs.frametop < f ∧ f < KSEG0

/-- A frame entirely off the free list: it is not the head and no
frame-table word points at it. -/
def offList (fs : FrameState) (f : Nat) : Prop :=
  fs.freeframe ≠ f ∧ ∀ j, fs.table j ≠ f

instance (fs : FrameState) (fl : List Nat) : Decidable (GoodFrees fs fl) :=
  inferInstanceAs (Decidable (_ ∧ _ ∧ _ ∧ _))

/-- Kernel state seen by the address-space code: the frame allocator
plus page-keyed memory (page base address, in-page offset ↦ stored
value). -/
structure VMState where
  fs : FrameState
  mem : Nat → Nat → Nat

/-- alloc_kpages(1) lifted to the full kernel state. -/
def alloc_kpage (s : VMState) : Nat × VMState :=
  let r := alloc_kpages 1 s.fs
  (r.1, { s with fs := r.2 })

/-- as_zero_region(vaddr, 1): bzero one page.  Every call site of
as_zero_region in the sources passes npages = 1, so the embedding
models exactly that case. -/
def as_zero_region (vaddr : Nat) (s : VMState) : VMState :=
  { s with mem := fun p o => if p = vaddr then 0 else s.mem p o }

/-- A single word store *(base + off) = v. -/
def writeMem (b o v : Nat) (s : VMState) : VMState :=
  { s with mem := fun p q => if p = b ∧ q = o then v else s.mem p q }

/-- memmove(dst, src, PAGE_SIZE) for page-aligned dst and src: copy the
whole page. -/
def copyPage (dst src : Nat) (s : VMState) : VMState :=
  { s with mem := fun p o => if p = dst then s.mem src o else s.mem p o }

/-- One region record (struct as_region); the C linked list through
as_next_region becomes a Lean list. -/
structure as_region where
  as_vbase : Nat
  as_npages : Nat
  as_permissions : Nat
deriving DecidableEq

/-- struct addrspace: kernel-virtual address of the level-1 page-table
frame plus the region list. -/
structure addrspace where
  as_pagetable : Nat
  as_regions_start : List as_region
deriving DecidableEq

/-- Result of an operation that can fail a KASSERT: kpanic models the
kernel assertion failure (the machine halts). -/
inductive KR (α : Type) where
  | kpanic : KR α
  | ok : α → KR α
deriving DecidableEq

/-- as_create: allocate and zero the level-1 page-table frame, start
with an empty region list.  Failure of the page-table allocation
returns no address space (the C returns NULL after a kprintf).  kmalloc
of the addrspace record itself is the kernel heap, modelled as always
succeeding; its failure path also just returns NULL. -/
def as_create (s : VMState) : Option addrspace × VMState :=
  let a := alloc_kpage s
  if a.1 = 0 then (none, a.2)
  else (some { as_pagetable := a.1, as_regions_start := [] }, as_zero_region a.1 a.2)

/-- The region-copying phase of as_copy: each node is checked by
KASSERT(as_vbase != 0) and KASSERT(as_npages != 0) and duplicated
field by field into a fresh node (kmalloc modelled as succeeding). -/
def copyRegions : List as_region → KR (List as_region)
  | [] => .ok []
  | rg :: rest =>
    if rg.as_vbase = 0 ∨ rg.as_npages = 0 then .kpanic
    else
      match copyRegions rest with
      | .kpanic => .kpanic
      | .ok l =>
        .ok ({ as_vbase := rg.as_vbase, as_npages := rg.as_npages
               as_permissions := rg.as_permissions } :: l)

/-- Inner loop of as_copy's page-table copy, over the level-2 slots js
of the source table page osrc and destination table page ndst: for a
valid source entry, allocate a fresh frame (KASSERT on failure), copy
the source frame's page contents into it, and store the new frame
(tagged PTE_VALID) in the destination slot. -/
def copyL2 (osrc ndst : Nat) : List Nat → VMState → KR Unit × VMState
  | [], s => (.ok (), s)
  | j :: rest, s =>
    let e := s.mem osrc (4 * j)
    if e &&& PTE_VALID ≠ 0 then
      let a := alloc_kpage s
      if a.1 = 0 then (.kpanic, a.2)
      else
        let s2 := copyPage a.1 (pageFrame e) a.2
        let s3 := writeMem ndst (4 * j) (a.1 ||| PTE_VALID) s2
        copyL2 osrc ndst rest s3
    else copyL2 osrc ndst rest s

/-- Outer loop of as_copy's page-table copy over the level-1 slots: for
a present source slot, allocate a fresh level-2 table frame (KASSERT on
failure), store it in the destination slot, zero it, and run the inner
copy.  The source and destination table pages handed to the inner loop
are re-read from the slots exactly as the C reads *ovaddr1/*nvaddr1. -/
def copyPT (opt npt : Nat) : List Nat → VMState → KR Unit × VMState
  | [], s => (.ok (), s)
  | i :: rest, s =>
    let o1 := s.mem opt (4 * i)
    if o1 ≠ 0 then
      let a := alloc_kpage s
      if a.1 = 0 then (.kpanic, a.2)
      else
        let s2 := writeMem npt (4 * i) a.1 a.2
        let s3 := as_zero_region (s2.mem npt (4 * i)) s2
        let osrc := s3.mem opt (4 * i)
        let ndst := s3.mem npt (4 * i)
        match copyL2 osrc ndst (List.range PTE_NUM) s3 with
        | (.kpanic, s4) => (.kpanic, s4)
        | (.ok _, s4) => copyPT opt npt rest s4
    else copyPT opt npt rest s

/-- as_copy: create a fresh address space, duplicate the region list
(value for value) and deep-copy the two-level page table.  Returns the
C result: ENOMEM when as_create fails, 0 with the out-parameter unset
(`none`) when the old region list is empty (the C returns before
storing *ret), and 0 with the new address space otherwise; a failed
KASSERT (allocation failure mid-copy, or a malformed region node) is
kpanic. -/
def as_copy (old : addrspace) (s : VMState) : KR (Nat × Option addrspace) × VMState :=
  let c := as_create s
  match c.1 with
  | none => (.ok (ENOMEM, none), c.2)
  | some newas =>
    match old.as_regions_start with
    | [] => (.ok (0, none), c.2)
    | _ :: _ =>
      match copyRegions old.as_regions_start with
      | .kpanic => (.kpanic, c.2)
      | .ok rl =>
        let newas2 := { newas with as_regions_start := rl }
        match copyPT old.as_pagetable newas2.as_pagetable (List.range PTE_NUM) c.2 with
        | (.kpanic, s') => (.kpanic, s')
        | (.ok _, s') => (.ok (0, some newas2), s')

/-- The page-table loop shared verbatim by as_define_region and
as_define_stack: for each page v of the list, force the level-2 table
of v's level-1 slot to be present (allocate + zero it if the slot is
empty, returning EFAULT when the allocation fails) and store 0 (an
unmapped entry) in v's level-2 slot.  The table page used for the
level-2 store is re-read from the slot exactly as the C reads
*vaddr1. -/
def forcePages (pt : Nat) : List Nat → VMState → Nat × VMState
  | [], s => (0, s)
  | v :: rest, s =>
    let t := s.mem pt (4 * idx1 v)
    if t = 0 then
      let a := alloc_kpage s
      if a.1 = 0 then (EFAULT, a.2)
      else
        let s2 := writeMem pt (4 * idx1 v) a.1 a.2
        let s3 := as_zero_region (s2.mem pt (4 * idx1 v)) s2
        let t2 := s3.mem pt (4 * idx1 v)
        let s4 := writeMem t2 (4 * idx2 v) 0 s3
        forcePages pt rest s4
    else
      let s2 := writeMem t (4 * idx2 v) 0 s
      forcePages pt rest s2

/-- as_define_region: page-align the base (down) and the size (up),
append the region record at the tail of the list, then pre-create the
second-level tables for every page of the range, leaving each level-2
entry 0 (unmapped).  Returns the C error code together with the updated
address space (the region node is appended before the loop, so it stays
appended even when the loop fails with EFAULT). -/
def as_define_region (as : addrspace) (vaddr sz : Nat)
    (readable writeable executable : Nat) (s : VMState) :
    (Nat × addrspace) × VMState :=
  let sz1 := sz + (vaddr &&& 0xfff)
  let vbase := pageFrame vaddr
  let sz2 := pageFrame (sz1 + PAGE_SIZE - 1)
  let npages := sz2 / PAGE_SIZE
  let as2 :=
    { as with
      as_regions_start := as.as_regions_start ++
        [{ as_vbase := vbase, as_npages := npages
           as_permissions := readable ||| writeable ||| executable }] }
  let r := forcePages as2.as_pagetable
      ((List.range npages).map fun k => vbase + PAGE_SIZE * k) s
  ((r.1, as2), r.2)

/-- as_prepare_load: every region's permission word is shifted left 8
bits (32-bit wraparound kept explicit) and or-ed with the original
permissions and PF_W, making the region writable while stashing the
original bits one byte higher.  KASSERT(as->as_regions_start != 0). -/
def as_prepare_load (as : addrspace) : KR addrspace :=
  if as.as_regions_start = [] then .kpanic
  else
    .ok { as with
          as_regions_start := as.as_regions_start.map fun rg =>
            { rg with
              as_permissions :=
                rg.as_permissions <<< 8 % 2 ^ 32 ||| rg.as_permissions ||| PF_W } }

/-- as_complete_load: restore by shifting every region's permission
word right 8 bits.  KASSERT(as->as_regions_start != 0). -/
def as_complete_load (as : addrspace) : KR addrspace :=
  if as.as_regions_start = [] then .kpanic
  else
    .ok { as with
          as_regions_start := as.as_regions_start.map fun rg =>
            { rg with as_permissions := rg.as_permissions >>> 8 } }

/-- as_define_stack: run the pre-creation loop over the pages
USERSTACK - i*PAGE_SIZE for i = 0 .. VM_STACKPAGES-1, and on success
store USERSTACK into *stackptr (`some USERSTACK`; on the EFAULT path
the out-parameter is left unset, `none`). -/
def as_define_stack (as : addrspace) (s : VMState) :
    (Nat × Option Nat) × VMState :=
  let r := forcePages as.as_pagetable
      ((List.range VM_STACKPAGES).map fun i => USERSTACK - i * PAGE_SIZE) s
  if r.1 = 0 then ((0, some USERSTACK), r.2) else ((r.1, none), r.2)

/-- The region-scan loop of vm_fault: each visited node is checked by
KASSERT(as_vbase != 0), KASSERT(as_npages != 0) and
KASSERT((as_vbase & PAGE_FRAME) == as_vbase); the first region whose
range [vbase, vbase + npages*PAGE_SIZE) contains the (page-aligned)
fault address is returned. -/
def findRegion : List as_region → Nat → KR (Option as_region)
  | [], _ => .ok none
  | rg :: rest, fa =>
    if rg.as_vbase = 0 ∨ rg.as_npages = 0 ∨ pageFrame rg.as_vbase ≠ rg.as_vbase then
      .kpanic
    else if rg.as_vbase ≤ fa ∧ fa < rg.as_vbase + rg.as_npages * PAGE_SIZE then
      .ok (some rg)
    else findRegion rest fa

/-- The TLB-refill scan of vm_fault: walk the slots in order, skip the
ones whose entry-lo has TLBLO_VALID set, and write {ehi, elo} into the
first invalid slot; none when every scanned slot is valid. -/
def tlbScan (ehi elo : Nat) (tlb : Nat → Nat × Nat) :
    List Nat → Option (Nat → Nat × Nat)
  | [] => none
  | k :: rest =>
    if (tlb k).2 &&& TLBLO_VALID ≠ 0 then tlbScan ehi elo tlb rest
    else some (fun j => if j = k then (ehi, elo) else tlb j)

/-- The complete TLB update of vm_fault: install into the first invalid
slot if one exists, otherwise overwrite the slot chosen by tlb_random
(the hardware's pseudo-random pick, modelled by the oracle r). -/
def tlbRefill (ehi elo r : Nat) (tlb : Nat → Nat × Nat) : Nat → Nat × Nat :=
  match tlbScan ehi elo tlb (List.range NUM_TLB) with
  | some t => t
  | none => fun j => if j = r then (ehi, elo) else tlb j

/-- vm_fault: the TLB-miss handler.  Arguments: the fault kind and
faulting address, the current thread's address space (curthread's
t_addrspace, `none` when the thread has no address space), the
pseudo-random slot oracle r for tlb_random, the kernel state and the
TLB contents.  Returns the C result code (kpanic for a failed KASSERT)
together with the new kernel state and TLB. -/
def vm_fault (faulttype faultaddress : Nat) (aso : Option addrspace)
    (r : Nat) (s : VMState) (tlb : Nat → Nat × Nat) :
    KR Nat × VMState × (Nat → Nat × Nat) :=
  if faulttype = VM_FAULT_READONLY then (.ok EFAULT, s, tlb)
  else if faulttype = VM_FAULT_READ ∨ faulttype = VM_FAULT_WRITE then
    match aso with
    | none => (.ok EFAULT, s, tlb)
    | some as =>
      let fa := pageFrame faultaddress
      if as.as_regions_start = [] then (.kpanic, s, tlb)
      else
        match findRegion as.as_regions_start fa with
        | .kpanic => (.kpanic, s, tlb)
        | .ok ro =>
          let faultadd := match ro with | some _ => fa | none => 0
          let permis0 := match ro with | some rg => rg.as_permissions | none => 0
          let stk :=
            if faultadd = 0 then
              if USERSTACK - VM_STACKPAGES * PAGE_SIZE ≤ fa ∧ fa < USERSTACK then
                (fa, permis0 ||| (PF_W ||| PF_R))
              else (0, permis0)
            else (faultadd, permis0)
          if stk.1 = 0 then (.ok EFAULT, s, tlb)
          else
            let permis := stk.2
            let i1 := idx1 fa
            let i2 := idx2 fa
            let t := s.mem as.as_pagetable (4 * i1)
            if t ≠ 0 then
              let e := s.mem t (4 * i2)
              if e &&& PTE_VALID ≠ 0 then
                let kv := pageFrame e
                let paddr := KVADDR_TO_PADDR kv
                let paddr2 := if permis &&& PF_W ≠ 0 then paddr ||| TLBLO_DIRTY else paddr
                (.ok 0, s, tlbRefill fa (paddr2 ||| TLBLO_VALID) r tlb)
              else
                let a := alloc_kpage s
                if a.1 = 0 then (.kpanic, a.2, tlb)
                else
                  let s2 := as_zero_region a.1 a.2
                  let e2 := s2.mem t (4 * i2)
                  let s3 := writeMem t (4 * i2) (e2 ||| (a.1 ||| PTE_VALID)) s2
                  let paddr := KVADDR_TO_PADDR a.1
                  let paddr2 := if permis &&& PF_W ≠ 0 then paddr ||| TLBLO_DIRTY else paddr
                  (.ok 0, s3, tlbRefill fa (paddr2 ||| TLBLO_VALID) r tlb)
            else
              let a := alloc_kpage s
              if a.1 = 0 then (.kpanic, a.2, tlb)
              else
                let s2 := writeMem as.as_pagetable (4 * i1) a.1 a.2
                let s3 := as_zero_region (s2.mem as.as_pagetable (4 * i1)) s2
                let t2 := s3.mem as.as_pagetable (4 * i1)
                let a2 := alloc_kpage s3
                if a2.1 = 0 then (.kpanic, a2.2, tlb)
                else
                  let s4 := as_zero_region a2.1 a2.2
                  let e2 := s4.mem t2 (4 * i2)
                  let s5 := writeMem t2 (4 * i2) (e2 ||| (a2.1 ||| PTE_VALID)) s4
                  let paddr := KVADDR_TO_PADDR a2.1
                  let paddr2 := if permis &&& PF_W ≠ 0 then paddr ||| TLBLO_DIRTY else paddr
                  (.ok 0, s5, tlbRefill fa (paddr2 ||| TLBLO_VALID) r tlb)
  else (.ok EINVAL, s, tlb)

/-- Page b is used by address space `as` in state s: it is the level-1
table page, a present level-2 table page, or the page frame of a valid
level-2 entry. -/
def UsedBy (s : VMState) (as : addrspace) (b : Nat) : Prop :=
  b = as.as_pagetable ∨
  (∃ i ∈ List.range PTE_NUM,
    s.mem as.as_pagetable (4 * i) ≠ 0 ∧ b = s.mem as.as_pagetable (4 * i)) ∨
  (∃ i ∈ List.range PTE_NUM,
    s.mem as.as_pagetable (4 * i) ≠ 0 ∧
    ∃ j ∈ List.range PTE_NUM,
      s.mem (s.mem as.as_pagetable (4 * i)) (4 * j) &&& PTE_VALID ≠ 0 ∧
      b = pageFrame (s.mem (s.mem as.as_pagetable (4 * i)) (4 * j)))

/-- Well-formed page table rooted at pt: every level-2 entry of a
present level-1 slot is either 0 (unmapped) or a page-aligned, nonzero
32-bit frame address with the PTE_VALID bit added. -/
def PTWF (s : VMState) (pt : Nat) : Prop :=
  ∀ i ∈ List.range PTE_NUM, s.mem pt (4 * i) ≠ 0 →
    ∀ j ∈ List.range PTE_NUM,
      s.mem (s.mem pt (4 * i)) (4 * j) = 0 ∨
      (s.mem (s.mem pt (4 * i)) (4 * j) % PAGE_SIZE = PTE_VALID ∧
       PAGE_SIZE < s.mem (s.mem pt (4 * i)) (4 * j) ∧
       s.mem (s.mem pt (4 * i)) (4 * j) < 2 ^ 32)

/-- Number of frames as_copy's inner loop allocates for the level-2
slots js of the source table page osrc: one per valid entry. -/
def needL2On (s : VMState) (osrc : Nat) (js : List Nat) : Nat :=
  (js.filter fun j => s.mem osrc (4 * j) &&& PTE_VALID ≠ 0).length

/-- Number of frames as_copy's page-table copy allocates for the
level-1 slots `is` of the table rooted at pt: one table frame plus one
frame per valid entry, for each present slot. -/
def needPTOn (s : VMState) (pt : Nat) (is : List Nat) : Nat :=
  (is.map fun i =>
    if s.mem pt (4 * i) ≠ 0 then
      1 + needL2On s (s.mem pt (4 * i)) (List.range PTE_NUM)
    else 0).sum

/-- Total number of frames a successful as_copy allocates: the new
level-1 root plus the page-table copy's needs. -/
def neededFrames (s : VMState) (old : addrspace) : Nat :=
  1 + needPTOn s old.as_pagetable (List.range PTE_NUM)

/-- The stack window vm_fault accepts as valid stack addresses:
USERSTACK - VM_STACKPAGES*PAGE_SIZE <= v < USERSTACK. -/
def stackWindow (v : Nat) : Prop :=
  USERSTACK - VM_STACKPAGES * PAGE_SIZE ≤ v ∧ v < USERSTACK

instance (v : Nat) : Decidable (stackWindow v) :=
  inferInstanceAs (Decidable (_ ∧ _))

/-- State s agrees with the pristine state s₀ on every page the
address space `as` uses in s₀: the original structure is byte-for-byte
intact. -/
def AGREE (s s₀ : VMState) (as : addrspace) : Prop :=
  ∀ b, UsedBy s₀ as b → ∀ o, s.mem b o = s₀.mem b o

instance (s : VMState) (as : addrspace) (b : Nat) : Decidable (UsedBy s as b) :=
  inferInstanceAs (Decidable (_ ∨ _ ∨ _))

theorem mul_pow_and (k a b : Nat) : 2 ^ k * a &&& 2 ^ k * b = 2 ^ k * (a &&& b) := by
  apply Nat.eq_of_testBit_eq
  intro i
  simp only [Nat.testBit_and, Nat.testBit_mul_pow_two]
  by_cases h : k ≤ i
  · simp [h]
  · simp [h]

theorem low_and_mul_pow (k r b : Nat) (hr : r < 2 ^ k) : r &&& 2 ^ k * b = 0 := by
  apply Nat.eq_of_testBit_eq
  intro i
  simp only [Nat.testBit_and, Nat.testBit_mul_pow_two, Nat.zero_testBit]
  by_cases h : k ≤ i
  · have : r.testBit i = false :=
      Nat.testBit_lt_two_pow (lt_of_lt_of_le hr (Nat.pow_le_pow_right (by norm_num) h))
    simp [this]
  · simp [h]

theorem and_mul_pow_sub_one (x k m : Nat) :
    x &&& 2 ^ k * (2 ^ m - 1) = 2 ^ k * (x / 2 ^ k % 2 ^ m) := by
  have hd : 2 ^ k * (x / 2 ^ k) + x % 2 ^ k = x := Nat.div_add_mod x (2 ^ k)
  have hm : x % 2 ^ k < 2 ^ k := Nat.mod_lt _ (Nat.pos_pow_of_pos k (by norm_num))
  conv_lhs => rw [← hd, Nat.mul_add_lt_is_or hm]
  rw [Nat.and_distrib_right, mul_pow_and, low_and_mul_pow _ _ _ hm,
    Nat.or_zero, Nat.and_pow_two_sub_one_eq_mod]

theorem pageFrame_eq (v : Nat) (hv : v < 2 ^ 32) :
    pageFrame v = v - v % PAGE_SIZE := by
  have h : PAGE_FRAME = 2 ^ 12 * (2 ^ 20 - 1) := by norm_num [PAGE_FRAME]
  have hq : v / 2 ^ 12 < 2 ^ 20 := by omega
  rw [pageFrame, h, and_mul_pow_sub_one, Nat.mod_eq_of_lt hq]
  have := Nat.div_add_mod v (2 ^ 12)
  simp only [PAGE_SIZE]
  omega

theorem pageFrame_add (f b : Nat) (hf : f % PAGE_SIZE = 0) (hb : b < PAGE_SIZE)
    (h32 : f < 2 ^ 32) : pageFrame (f + b) = f := by
  have : f + b < 2 ^ 32 := by
    simp only [PAGE_SIZE] at hf hb ⊢
    omega
  rw [pageFrame_eq _ this]
  simp only [PAGE_SIZE] at hf hb ⊢
  omega

theorem idx1_eq (v : Nat) (hv : v < 2 ^ 32) : idx1 v = v / 2 ^ 22 := by
  have h : TOP_TEN = 2 ^ 22 * (2 ^ 10 - 1) := by norm_num [TOP_TEN]
  have hq : v / 2 ^ 22 < 2 ^ 10 := by omega
  rw [idx1, h, and_mul_pow_sub_one, Nat.mod_eq_of_lt hq,
    Nat.shiftRight_eq_div_pow, Nat.mul_div_cancel_left _ (by norm_num : 0 < 2 ^ 22)]

theorem idx2_eq (v : Nat) : idx2 v = v / PAGE_SIZE % 1024 := by
  have h : MID_TEN = 2 ^ 12 * (2 ^ 10 - 1) := by norm_num [MID_TEN]
  rw [idx2, h, and_mul_pow_sub_one,
    Nat.shiftRight_eq_div_pow, Nat.mul_div_cancel_left _ (by norm_num : 0 < 2 ^ 12)]
  rfl

theorem aligned_or_small (f b : Nat) (hf : f % PAGE_SIZE = 0) (hb : b < PAGE_SIZE) :
    f ||| b = f + b := by
  have h12 : f = 2 ^ 12 * (f / 2 ^ 12) := by
    simp only [PAGE_SIZE] at hf
    omega
  have hb' : b < 2 ^ 12 := hb
  conv_lhs => rw [h12]
  rw [← Nat.mul_add_lt_is_or hb', ← h12]

theorem or_and_self (x y : Nat) : (x ||| y) &&& y = y := by
  apply Nat.eq_of_testBit_eq
  intro i
  simp only [Nat.testBit_and, Nat.testBit_or]
  cases x.testBit i <;> cases y.testBit i <;> rfl

theorem pair_of_idx (v w : Nat) (hv : v < 2 ^ 32) (hw : w < 2 ^ 32)
    (hva : v % PAGE_SIZE = 0) (hwa : w % PAGE_SIZE = 0)
    (h1 : idx1 v = idx1 w) (h2 : idx2 v = idx2 w) : v = w := by
  rw [idx1_eq _ hv, idx1_eq _ hw] at h1
  rw [idx2_eq, idx2_eq] at h2
  simp only [PAGE_SIZE] at hva hwa h2
  omega

theorem chain_congr (tbl tbl' : Nat → Nat) (ftop : Nat) :
    ∀ (fl : List Nat) (h : Nat),
      (∀ g ∈ fl, tbl' (frameIndex ftop g) = tbl (frameIndex ftop g)) →
      chain tbl ftop h fl → chain tbl' ftop h fl
  | [], h, _, hc => hc
  | f :: rest, h, hag, hc => by
    obtain ⟨h1, h2⟩ := hc
    refine ⟨h1, ?_⟩
    rw [hag f (List.mem_cons_self f rest)]
    exact chain_congr tbl tbl' ftop rest _
      (fun g hg => hag g (List.mem_cons_of_mem _ hg)) h2

theorem frameIndex_inj (ftop f g : Nat) (hft : ftop % PAGE_SIZE = 0)
    (hf : f % PAGE_SIZE = 0) (hg : g % PAGE_SIZE = 0)
    (hf2 : ftop < f) (hg2 : ftop < g)
    (h : frameIndex ftop f = frameIndex ftop g) : f = g := by
  simp only [frameIndex, PAGE_SIZE] at *
  omega

theorem getppages_eq (n : Nat) (fs : FrameState) (hn : ¬ 1 < n)
    (hfz : fs.freeframe ≠ 0) :
    getppages n fs =
      (fs.freeframe,
        { fs with
          freeframe := fs.table (frameIndex fs.frametop fs.freeframe)
          table := fun j =>
            if j = frameIndex fs.frametop fs.freeframe then 0 else fs.table j }) := by
  simp [getppages, hn, hfz]

theorem getppages_pop (fs : FrameState) (f : Nat) (fl : List Nat)
    (h : GoodFrees fs (f :: fl)) :
    (getppages 1 fs).1 = f ∧
    GoodFrees (getppages 1 fs).2 fl ∧
    (getppages 1 fs).2.frametop = fs.frametop ∧
    (∀ j, (getppages 1 fs).2.table j = fs.table j ∨ (getppages 1 fs).2.table j = 0) := by
  obtain ⟨hc, hnd, hft, hel⟩ := h
  obtain ⟨hh, hrest⟩ := hc
  have hf := hel f (List.mem_cons_self f fl)
  have hfz : fs.freeframe ≠ 0 := by omega
  rw [getppages_eq 1 fs (by omega) hfz]
  refine ⟨hh, ?_, rfl, ?_⟩
  · refine ⟨?_, (List.nodup_cons.mp hnd).2, hft,
      fun g hg => hel g (List.mem_cons_of_mem _ hg)⟩
    show chain _ _ _ fl
    simp only [hh]
    have hnot : f ∉ fl := (List.nodup_cons.mp hnd).1
    refine chain_congr fs.table _ fs.frametop fl _ ?_ hrest
    intro g hg
    have hgel := hel g (List.mem_cons_of_mem _ hg)
    have hne : frameIndex fs.frametop g ≠ frameIndex fs.frametop f := by
      intro he
      exact hnot (frameIndex_inj fs.frametop g f hft hgel.1 hf.1 hgel.2.1 hf.2.1 he ▸ hg)
    simp [hne]
  · intro j
    by_cases hj : j = frameIndex fs.frametop fs.freeframe
    · right; simp [hj]
    · left; simp [hj]

theorem getppages_offList (n : Nat) (fs : FrameState) (f : Nat) (hne : f ≠ 0)
    (h : offList fs f) : offList (getppages n fs).2 f := by
  obtain ⟨h1, h2⟩ := h
  by_cases hn : 1 < n
  · simp only [getppages, if_pos hn]
    exact ⟨h1, h2⟩
  · by_cases hz : fs.freeframe = 0
    · simp only [getppages, if_neg hn, if_pos hz]
      exact ⟨h1, h2⟩
    · rw [getppages_eq n fs hn hz]
      refine ⟨h2 _, fun j => ?_⟩
      by_cases hj : j = frameIndex fs.frametop fs.freeframe
      · simp only [hj]
        simp [Ne.symm hne]
      · simp [hj]
        exact h2 j

theorem alloc_kpage_pop (s : VMState) (f : Nat) (fl : List Nat)
    (h : GoodFrees s.fs (f :: fl)) :
    (alloc_kpage s).1 = f + KSEG0 ∧
    (alloc_kpage s).2.mem = s.mem ∧
    GoodFrees (alloc_kpage s).2.fs fl ∧
    (alloc_kpage s).2.fs.frametop = s.fs.frametop ∧
    (∀ j, (alloc_kpage s).2.fs.table j = s.fs.table j ∨
      (alloc_kpage s).2.fs.table j = 0) := by
  obtain ⟨h1, h2, h3, h4⟩ := getppages_pop s.fs f fl h
  have hfpos : 0 < f := by
    have := (h.2.2.2 f (List.mem_cons_self f fl)).2.1
    omega
  have hne : (getppages 1 s.fs).1 ≠ 0 := by rw [h1]; omega
  have he : alloc_kpage s =
      ((getppages 1 s.fs).1 + KSEG0, { s with fs := (getppages 1 s.fs).2 }) := by
    simp only [alloc_kpage, alloc_kpages]
    rw [if_neg hne]
    rfl
  rw [he]
  exact ⟨by rw [h1], rfl, h2, h3, h4⟩

/-- C4.  The spec asserts that bootstrap threads the free list
"terminating the last entry with 0" and that once the free list is
exhausted the next single-frame allocation fails.  The bootstrap loop
runs only up to framenum - 1 and never initialises the next-free word
of the last frame, so after handing out every free frame the allocator
chases whatever value the uninitialised word happens to hold.  Concrete
run: usable range [0, 0x8000) = 8 frames, one reserved bookkeeping
frame, every pre-existing frame-table word = 4096.  The 7 free frames
are allocated correctly (distinct addresses 0x1000 .. 0x7000), and the
8th request — which the claim requires to fail — succeeds and returns
4096, the address of the frame handed out first. -/
theorem claim_C4 :
    frametable_bootstrap_ok 0 32768 ∧
    (allocSeq 7 (frametable_bootstrap 0 32768 (fun _ => 4096))).1 =
      [4096, 8192, 12288, 16384, 20480, 24576, 28672] ∧
    (allocSeq 7 (frametable_bootstrap 0 32768 (fun _ => 4096))).1.Nodup ∧
    (getppages 1 (allocSeq 7 (frametable_bootstrap 0 32768 (fun _ => 4096))).2).1 = 4096 ∧
    (getppages 1 (allocSeq 7 (frametable_bootstrap 0 32768 (fun _ => 4096))).2).1 ≠ 0 := by
  refine ⟨?_, ?_, ?_, ?_, ?_⟩ <;> decide

/-- C5.  For every allocator state and every kernel-virtual address
whose physical frame lies above the bookkeeping boundary, freeing it
and immediately allocating returns exactly that address: free pushes at
the head of the free list and allocate pops the head, and afterwards
the head points back at the frame that headed the list before the free
(every other frame-table word is untouched). -/
theorem claim_C5 (fs : FrameState) (addr : Nat)
    (hks : KSEG0 ≤ addr) (hab : fs.frametop < addr - KSEG0) :
    (alloc_kpages 1 (free_kpages addr fs)).1 = addr ∧
    (alloc_kpages 1 (free_kpages addr fs)).2.freeframe = fs.freeframe ∧
    (alloc_kpages 1 (free_kpages addr fs)).2.table
      (frameIndex fs.frametop (addr - KSEG0)) = 0 ∧
    (∀ j, j ≠ frameIndex fs.frametop (addr - KSEG0) →
      (alloc_kpages 1 (free_kpages addr fs)).2.table j = fs.table j) := by
  have hle : ¬ (addr - KSEG0 ≤ fs.frametop) := by omega
  have hfr : free_kpages addr fs = freeppages (addr - KSEG0) fs := by
    simp only [free_kpages, KVADDR_TO_PADDR]
    rw [if_neg hle]
  have hfz : (freeppages (addr - KSEG0) fs).freeframe ≠ 0 := by
    simp only [freeppages]
    omega
  rw [hfr, alloc_kpages, getppages_eq 1 _ (by omega) hfz]
  have hff : (freeppages (addr - KSEG0) fs).freeframe = addr - KSEG0 := rfl
  have htop : (freeppages (addr - KSEG0) fs).frametop = fs.frametop := rfl
  rw [if_neg (by rw [hff]; omega : ¬ (freeppages (addr - KSEG0) fs).freeframe = 0)]
  simp only [hff, htop, PADDR_TO_KVADDR]
  refine ⟨by omega, ?_, ?_, ?_⟩
  · show (freeppages (addr - KSEG0) fs).table _ = fs.freeframe
    simp [freeppages]
  · simp
  · intro j hj
    simp only [if_neg hj]
    show (freeppages (addr - KSEG0) fs).table j = fs.table j
    simp [freeppages, if_neg hj]

theorem claim_C5_witness :
    KSEG0 ≤ 2147508224 ∧ (20480 : Nat) < 2147508224 - KSEG0 ∧
    (alloc_kpages 1 (free_kpages 2147508224
      ⟨fun _ => 0, 20480, 40960⟩)).1 = 2147508224 := by
  refine ⟨by decide, by decide, ?_⟩
  exact (claim_C5 ⟨fun _ => 0, 20480, 40960⟩ 2147508224 (by decide) (by decide)).1

/-- C8.  Freeing a kernel-virtual address whose physical translation is
at or below frametop (the reserved bookkeeping region at the start of
usable physical memory) leaves the entire allocator state — frame-table
words, free-list head, everything — unchanged: the frame is silently
leaked and the table is never corrupted. -/
theorem claim_C8 (fs : FrameState) (addr : Nat)
    (_hks : KSEG0 ≤ addr) (hlow : addr - KSEG0 ≤ fs.frametop) :
    free_kpages addr fs = fs := by
  have : KVADDR_TO_PADDR addr ≤ fs.frametop := by
    simp only [KVADDR_TO_PADDR]
    omega
  simp [free_kpages, this]

theorem claim_C8_witness :
    KSEG0 ≤ 2147487744 ∧ 2147487744 - KSEG0 ≤ (20480 : Nat) ∧
    free_kpages 2147487744 ⟨fun _ => 7, 20480, 40960⟩ =
      ⟨fun _ => 7, 20480, 40960⟩ := by
  refine ⟨by decide, by decide, ?_⟩
  exact claim_C8 ⟨fun _ => 7, 20480, 40960⟩ 2147487744 (by decide) (by decide)

theorem perm_stash (p : Nat) (hp : p < 2 ^ 8) :
    (p <<< 8 % 2 ^ 32 ||| p ||| PF_W) >>> 8 = p ∧
    (p <<< 8 % 2 ^ 32 ||| p ||| PF_W) % 2 ^ 8 &&& PF_W = PF_W := by
  have hs : p <<< 8 = 2 ^ 8 * p := by
    rw [Nat.shiftLeft_eq]
    ring
  have hmod : 2 ^ 8 * p % 2 ^ 32 = 2 ^ 8 * p := Nat.mod_eq_of_lt (by omega)
  have hq : p ||| PF_W < 2 ^ 8 := Nat.or_lt_two_pow hp (by norm_num [PF_W])
  have hlor : p <<< 8 % 2 ^ 32 ||| p ||| PF_W = 2 ^ 8 * p + (p ||| PF_W) := by
    rw [hs, hmod, Nat.lor_assoc, ← Nat.mul_add_lt_is_or hq]
  constructor
  · rw [hlor, Nat.shiftRight_eq_div_pow]
    omega
  · rw [hlor]
    have h2 : (2 ^ 8 * p + (p ||| PF_W)) % 2 ^ 8 = p ||| PF_W := by omega
    rw [h2, or_and_self]

theorem map_restore (l : List as_region) (h : ∀ rg ∈ l, rg.as_permissions < 2 ^ 8) :
    ((l.map fun rg =>
        { rg with
          as_permissions :=
            rg.as_permissions <<< 8 % 2 ^ 32 ||| rg.as_permissions ||| PF_W }).map
      fun rg => { rg with as_permissions := rg.as_permissions >>> 8 }) = l := by
  induction l with
  | nil => rfl
  | cons a t ih =>
    obtain ⟨vb, np, pm⟩ := a
    simp only [List.map_cons]
    rw [ih fun rg hrg => h rg (List.mem_cons_of_mem _ hrg)]
    have h1 : (pm <<< 8 % 4294967296 ||| pm ||| PF_W) >>> 8 = pm :=
      (perm_stash pm (h ⟨vb, np, pm⟩ (List.mem_cons_self _ t))).1
    simp [h1]

/-- C6.  For every address space with a non-empty region list whose
permission words occupy only the low 8 bits, as_prepare_load succeeds
and afterwards the active (low-byte) permission bits of every region
include PF_W, and a following as_complete_load restores the address
space — every region's permission word — to exactly its original
value. -/
theorem claim_C6 (as : addrspace) (hne : as.as_regions_start ≠ [])
    (hlow : ∀ rg ∈ as.as_regions_start, rg.as_permissions < 2 ^ 8) :
    ∃ as', as_prepare_load as = .ok as' ∧
      (∀ rg ∈ as'.as_regions_start, rg.as_permissions % 2 ^ 8 &&& PF_W = PF_W) ∧
      as_complete_load as' = .ok as := by
  simp only [as_prepare_load]
  rw [if_neg hne]
  refine ⟨_, rfl, ?_, ?_⟩
  · intro rg hrg
    simp only [List.mem_map] at hrg
    obtain ⟨rg0, hrg0, hre⟩ := hrg
    subst hre
    exact (perm_stash rg0.as_permissions (hlow rg0 hrg0)).2
  · have hne2 : (as.as_regions_start.map fun rg =>
        { rg with
          as_permissions :=
            rg.as_permissions <<< 8 % 2 ^ 32 ||| rg.as_permissions ||| PF_W }) ≠ [] := by
      simpa using hne
    simp only [as_complete_load]
    rw [if_neg hne2, map_restore as.as_regions_start hlow]

theorem claim_C6_witness :
    (⟨4096, [⟨4096, 2, 5⟩]⟩ : addrspace).as_regions_start ≠ [] ∧
    (∀ rg ∈ (⟨4096, [⟨4096, 2, 5⟩]⟩ : addrspace).as_regions_start,
      rg.as_permissions < 2 ^ 8) ∧
    ∃ as', as_prepare_load ⟨4096, [⟨4096, 2, 5⟩]⟩ = .ok as' ∧
      (∀ rg ∈ as'.as_regions_start, rg.as_permissions % 2 ^ 8 &&& PF_W = PF_W) ∧
      as_complete_load as' = .ok ⟨4096, [⟨4096, 2, 5⟩]⟩ := by
  refine ⟨by decide, by decide, ?_⟩
  exact claim_C6 ⟨4096, [⟨4096, 2, 5⟩]⟩ (by decide) (by decide)

theorem VMState_ext (A B : VMState) (h1 : A.fs = B.fs)
    (h2 : ∀ p q, A.mem p q = B.mem p q) : A = B := by
  cases A
  cases B
  simp only at h1
  subst h1
  congr 1
  funext p q
  exact h2 p q

theorem alloc_kpages_fs (n : Nat) (fs : FrameState) :
    (alloc_kpages n fs).2 = (getppages n fs).2 := by
  simp only [alloc_kpages]
  split <;> rfl

theorem forcePages_cons_present (pt v : Nat) (rest : List Nat) (s : VMState)
    (ht : s.mem pt (4 * idx1 v) ≠ 0) :
    forcePages pt (v :: rest) s =
      forcePages pt rest (writeMem (s.mem pt (4 * idx1 v)) (4 * idx2 v) 0 s) := by
  simp only [forcePages]
  rw [if_neg ht]


theorem forcePages_cons_absent (pt v : Nat) (rest : List Nat) (s : VMState)
    (f : Nat) (ch' : List Nat) (h1 : GoodFrees s.fs (f :: ch'))
    (ht : s.mem pt (4 * idx1 v) = 0) (hne : f + KSEG0 ≠ pt) :
    forcePages pt (v :: rest) s =
      forcePages pt rest
        { fs := (alloc_kpage s).2.fs
          mem := fun p q =>
            if p = f + KSEG0 then 0
            else if p = pt ∧ q = 4 * idx1 v then f + KSEG0
            else s.mem p q } := by
  obtain ⟨ha1, ha2, _, _, _⟩ := alloc_kpage_pop s f ch' h1
  have hK : (alloc_kpage s).1 ≠ 0 := by
    rw [ha1]
    simp only [KSEG0]
    omega
  simp only [forcePages]
  rw [if_pos ht, if_neg hK]
  congr 1
  apply VMState_ext
  · rfl
  · intro p q
    simp only [writeMem, as_zero_region, ha1, ha2, eq_self_iff_true, and_self,
      if_true, true_and, and_true]
    rw [if_neg (Ne.symm hne)]
    by_cases hp1 : p = f + KSEG0
    · subst hp1
      simp [hne]
    · by_cases hp2 : p = pt ∧ q = 4 * idx1 v
      · obtain ⟨hp2a, hp2b⟩ := hp2
        subst hp2a
        subst hp2b
        simp [Ne.symm hne, hp1]
      · simp [if_neg hp2, if_neg hp1, hp1, hp2]

theorem forcePages_spec (pt : Nat) :
    ∀ (vs : List Nat) (s : VMState) (ch : List Nat),
      GoodFrees s.fs ch →
      vs.length ≤ ch.length →
      (∀ f ∈ ch, f + KSEG0 ≠ pt) →
      (∀ v ∈ vs, ∀ f ∈ ch,
        s.mem pt (4 * idx1 v) ≠ 0 → s.mem pt (4 * idx1 v) ≠ f + KSEG0) →
      (∀ v ∈ vs, s.mem pt (4 * idx1 v) ≠ pt) →
      (forcePages pt vs s).1 = 0 ∧
      (∀ v ∈ vs, (forcePages pt vs s).2.mem pt (4 * idx1 v) ≠ 0 ∧
        (forcePages pt vs s).2.mem
          ((forcePages pt vs s).2.mem pt (4 * idx1 v)) (4 * idx2 v) = 0) ∧
      (∀ g, g ≠ 0 → offList s.fs g → offList (forcePages pt vs s).2.fs g) ∧
      (∀ o, (forcePages pt vs s).2.mem pt o ≠ s.mem pt o → s.mem pt o = 0) ∧
      (∀ b, b ≠ pt → (∀ f ∈ ch, b ≠ f + KSEG0) →
        ∀ o, (forcePages pt vs s).2.mem b o = s.mem b o ∨
          (forcePages pt vs s).2.mem b o = 0) := by
  intro vs
  induction vs with
  | nil =>
    intro s ch _ _ _ _ _
    exact ⟨rfl, by simp, fun g _ h => h, fun o h => absurd rfl h,
      fun b _ _ o => Or.inl rfl⟩
  | cons v rest ih =>
    intro s ch h1 h2 h3 h4 h5
    by_cases ht : s.mem pt (4 * idx1 v) = 0
    · -- the level-1 slot is empty: allocate a fresh level-2 table
      obtain ⟨f, ch', rfl⟩ : ∃ f ch', ch = f :: ch' := by
        cases ch with
        | nil => simp at h2
        | cons a b => exact ⟨a, b, rfl⟩
      have hfK : f + KSEG0 ≠ pt := h3 f (List.mem_cons_self f ch')
      rw [forcePages_cons_absent pt v rest s f ch' h1 ht hfK]
      obtain ⟨_, _, ha3, _, _⟩ := alloc_kpage_pop s f ch' h1
      have hfnch' : f ∉ ch' := (List.nodup_cons.mp h1.2.1).1
      set S : VMState :=
        { fs := (alloc_kpage s).2.fs
          mem := fun p q =>
            if p = f + KSEG0 then 0
            else if p = pt ∧ q = 4 * idx1 v then f + KSEG0
            else s.mem p q } with hS
      have hSslot : ∀ w : Nat, S.mem pt (4 * idx1 w) =
          if 4 * idx1 w = 4 * idx1 v then f + KSEG0 else s.mem pt (4 * idx1 w) := by
        intro w
        simp only [hS]
        rw [if_neg (Ne.symm hfK)]
        by_cases hw : 4 * idx1 w = 4 * idx1 v
        · simp [hw]
        · simp [hw]
      have hh4 : ∀ w ∈ rest, ∀ g ∈ ch',
          S.mem pt (4 * idx1 w) ≠ 0 → S.mem pt (4 * idx1 w) ≠ g + KSEG0 := by
        intro w hw g hg hnz
        rw [hSslot w] at hnz ⊢
        by_cases hcase : 4 * idx1 w = 4 * idx1 v
        · rw [if_pos hcase] at hnz ⊢
          intro hcon
          have : f = g := by omega
          exact hfnch' (this ▸ hg)
        · rw [if_neg hcase] at hnz ⊢
          exact h4 w (List.mem_cons_of_mem _ hw) g (List.mem_cons_of_mem _ hg) hnz
      have hh5 : ∀ w ∈ rest, S.mem pt (4 * idx1 w) ≠ pt := by
        intro w hw
        rw [hSslot w]
        by_cases hcase : 4 * idx1 w = 4 * idx1 v
        · rw [if_pos hcase]
          exact hfK
        · rw [if_neg hcase]
          exact h5 w (List.mem_cons_of_mem _ hw)
      have ihh := ih S ch' ha3
        (Nat.le_of_succ_le_succ (by simpa using h2))
        (fun g hg => h3 g (List.mem_cons_of_mem _ hg)) hh4 hh5
      obtain ⟨q1, q2, q3, q4, q5⟩ := ihh
      refine ⟨q1, ?_, ?_, ?_, ?_⟩
      · intro w hw
        rcases List.mem_cons.mp hw with hwv | hwr
        · subst hwv
          have hSv : S.mem pt (4 * idx1 w) = f + KSEG0 := by
            rw [hSslot w, if_pos rfl]
          have hslot : (forcePages pt rest S).2.mem pt (4 * idx1 w) = f + KSEG0 := by
            by_cases hch : (forcePages pt rest S).2.mem pt (4 * idx1 w) =
                S.mem pt (4 * idx1 w)
            · rw [hch, hSv]
            · exfalso
              have h0 := q4 _ hch
              rw [hSv] at h0
              simp only [KSEG0] at h0
              omega
          refine ⟨by rw [hslot]; simp only [KSEG0]; omega, ?_⟩
          rw [hslot]
          have hb := q5 (f + KSEG0) hfK
            (fun g hg hc => by
              have hfg : f = g := by omega
              subst hfg
              exact hfnch' hg)
            (4 * idx2 w)
          rcases hb with hb | hb
          · rw [hb]
            simp [hS]
          · exact hb
        · exact q2 w hwr
      · intro g hg ho
        refine q3 g hg ?_
        show offList (alloc_kpage s).2.fs g
        have hfs : (alloc_kpage s).2.fs = (getppages 1 s.fs).2 := by
          simp only [alloc_kpage]
          rw [alloc_kpages_fs]
        rw [hfs]
        exact getppages_offList 1 s.fs g hg ho
      · intro o hch
        by_cases hv : o = 4 * idx1 v
        · rw [hv]
          exact ht
        · have hSo : S.mem pt o = s.mem pt o := by
            simp only [hS]
            rw [if_neg (Ne.symm hfK), if_neg (by tauto)]
          by_cases hq : (forcePages pt rest S).2.mem pt o = S.mem pt o
          · rw [hq, hSo] at hch
            exact absurd rfl hch
          · have h0 := q4 o hq
            rw [hSo] at h0
            exact h0
      · intro b hbpt hbch o
        have hb5 := q5 b hbpt (fun g hg => hbch g (List.mem_cons_of_mem _ hg)) o
        have hSb : S.mem b o = s.mem b o := by
          simp only [hS]
          rw [if_neg (hbch f (List.mem_cons_self f ch')), if_neg (by tauto)]
        rw [hSb] at hb5
        exact hb5
    · -- the level-1 slot already holds a table: only zero the level-2 entry
      rw [forcePages_cons_present pt v rest s ht]
      set S : VMState := writeMem (s.mem pt (4 * idx1 v)) (4 * idx2 v) 0 s with hS
      have hSfs : S.fs = s.fs := rfl
      have hSpt : ∀ o, S.mem pt o = s.mem pt o := by
        intro o
        have hcon : ¬ (pt = s.mem pt (4 * idx1 v) ∧ o = 4 * idx2 v) := by
          intro hcon
          exact h5 v (List.mem_cons_self v rest) hcon.1.symm
        simp only [hS, writeMem]
        rw [if_neg hcon]
      have ihh := ih S ch (hSfs ▸ h1)
        (Nat.le_of_succ_le (by simpa using h2)) h3
        (fun w hw g hg => by
          rw [hSpt (4 * idx1 w)]
          exact h4 w (List.mem_cons_of_mem _ hw) g hg)
        (fun w hw => by
          rw [hSpt (4 * idx1 w)]
          exact h5 w (List.mem_cons_of_mem _ hw))
      obtain ⟨q1, q2, q3, q4, q5⟩ := ihh
      refine ⟨q1, ?_, ?_, ?_, ?_⟩
      · intro w hw
        rcases List.mem_cons.mp hw with hwv | hwr
        · subst hwv
          have hslot : (forcePages pt rest S).2.mem pt (4 * idx1 w) =
              s.mem pt (4 * idx1 w) := by
            by_cases hch : (forcePages pt rest S).2.mem pt (4 * idx1 w) =
                S.mem pt (4 * idx1 w)
            · rw [hch, hSpt]
            · exfalso
              have h0 := q4 _ hch
              rw [hSpt] at h0
              exact ht h0
          refine ⟨by rw [hslot]; exact ht, ?_⟩
          rw [hslot]
          have hb := q5 (s.mem pt (4 * idx1 w)) (h5 w (List.mem_cons_self w rest))
            (fun g hg => h4 w (List.mem_cons_self w rest) g hg ht) (4 * idx2 w)
          rcases hb with hb | hb
          · rw [hb]
            simp [hS, writeMem]
          · exact hb
        · exact q2 w hwr
      · intro g hg ho
        exact q3 g hg (hSfs ▸ ho)
      · intro o hch
        by_cases hq : (forcePages pt rest S).2.mem pt o = S.mem pt o
        · rw [hq, hSpt] at hch
          exact absurd rfl hch
        · have h0 := q4 o hq
          rw [hSpt] at h0
          exact h0
      · intro b hbpt hbch o
        have hb5 := q5 b hbpt hbch o
        rcases hb5 with hb5 | hb5
        · rw [hb5]
          simp only [hS, writeMem]
          by_cases hbt : b = s.mem pt (4 * idx1 v) ∧ o = 4 * idx2 v
          · right
            rw [if_pos hbt]
          · left
            rw [if_neg hbt]
        · right
          exact hb5

/-- C7 counterexample.  The claim says as_define_stack forces level-2
tables present for exactly the pages of the window
[USERSTACK - VM_STACKPAGES*PAGE_SIZE, USERSTACK) that vm_fault accepts
as stack addresses.  Concrete run on an address space with an empty
page table and two free frames: the call succeeds and stores USERSTACK,
but its loop starts at i = 0 with the page USERSTACK itself — a page
the vm_fault window rejects — and creates a level-2 table for it
(level-1 slot 512 becomes nonzero), so the covered set is not the
vm_fault window. -/
theorem claim_C7_counterexample :
    (as_define_stack ⟨KSEG0 + 409600, []⟩
      ⟨⟨fun i => if i = 1 then 8192 else 0, 0, 4096⟩, fun _ _ => 0⟩).1 =
      (0, some USERSTACK) ∧
    (⟨⟨fun i => if i = 1 then 8192 else 0, 0, 4096⟩, fun _ _ => 0⟩ :
        VMState).mem (KSEG0 + 409600) (4 * idx1 USERSTACK) = 0 ∧
    (as_define_stack ⟨KSEG0 + 409600, []⟩
      ⟨⟨fun i => if i = 1 then 8192 else 0, 0, 4096⟩, fun _ _ => 0⟩).2.mem
        (KSEG0 + 409600) (4 * idx1 USERSTACK) ≠ 0 ∧
    ¬ stackWindow USERSTACK := by
  refine ⟨?_, ?_, ?_, ?_⟩ <;> decide

/-- C7 (amended).  as_define_stack pre-creates second-level tables
(leaving each level-2 entry 0, unmapped) for the pages
USERSTACK - i*PAGE_SIZE for 0 ≤ i < VM_STACKPAGES — a window shifted
one page up from the window vm_fault accepts: it covers the page at
USERSTACK itself, which vm_fault rejects, and omits the vm_fault
window's lowest page USERSTACK - VM_STACKPAGES*PAGE_SIZE — and on
success stores USERSTACK as the initial stack pointer. -/
theorem claim_C7 (as : addrspace) (s : VMState) (ch : List Nat)
    (h1 : GoodFrees s.fs ch) (h2 : VM_STACKPAGES ≤ ch.length)
    (h3 : ∀ f ∈ ch, f + KSEG0 ≠ as.as_pagetable)
    (h4 : ∀ i ∈ List.range VM_STACKPAGES, ∀ f ∈ ch,
      s.mem as.as_pagetable (4 * idx1 (USERSTACK - i * PAGE_SIZE)) ≠ 0 →
      s.mem as.as_pagetable (4 * idx1 (USERSTACK - i * PAGE_SIZE)) ≠ f + KSEG0)
    (h5 : ∀ i ∈ List.range VM_STACKPAGES,
      s.mem as.as_pagetable (4 * idx1 (USERSTACK - i * PAGE_SIZE)) ≠ as.as_pagetable) :
    (as_define_stack as s).1 = (0, some USERSTACK) ∧
    (∀ i ∈ List.range VM_STACKPAGES,
      (as_define_stack as s).2.mem as.as_pagetable
        (4 * idx1 (USERSTACK - i * PAGE_SIZE)) ≠ 0 ∧
      (as_define_stack as s).2.mem
        ((as_define_stack as s).2.mem as.as_pagetable
          (4 * idx1 (USERSTACK - i * PAGE_SIZE)))
        (4 * idx2 (USERSTACK - i * PAGE_SIZE)) = 0) ∧
    ¬ stackWindow USERSTACK ∧
    (∀ i ∈ List.range VM_STACKPAGES,
      USERSTACK - i * PAGE_SIZE ≠ USERSTACK - VM_STACKPAGES * PAGE_SIZE) := by
  have hlen : ((List.range VM_STACKPAGES).map
      fun i => USERSTACK - i * PAGE_SIZE).length ≤ ch.length := by
    simpa using h2
  have hsp := forcePages_spec as.as_pagetable
    ((List.range VM_STACKPAGES).map fun i => USERSTACK - i * PAGE_SIZE)
    s ch h1 hlen h3
    (fun v hv g hg => by
      obtain ⟨i, hi, rfl⟩ := List.mem_map.mp hv
      exact h4 i hi g hg)
    (fun v hv => by
      obtain ⟨i, hi, rfl⟩ := List.mem_map.mp hv
      exact h5 i hi)
  obtain ⟨q1, q2, _, _, _⟩ := hsp
  have hds : as_define_stack as s =
      ((0, some USERSTACK),
        (forcePages as.as_pagetable
          ((List.range VM_STACKPAGES).map fun i => USERSTACK - i * PAGE_SIZE) s).2) := by
    simp only [as_define_stack]
    rw [if_pos q1]
  rw [hds]
  refine ⟨rfl, ?_, by decide, by decide⟩
  intro i hi
  exact q2 (USERSTACK - i * PAGE_SIZE) (List.mem_map.mpr ⟨i, hi, rfl⟩)

theorem claim_C7_witness :
    GoodFrees (⟨⟨fun i => if i < 16 then (i + 1) * 4096 else 0, 0, 4096⟩,
        fun _ _ => 0⟩ : VMState).fs
      [4096, 8192, 12288, 16384, 20480, 24576, 28672, 32768, 36864, 40960,
        45056, 49152, 53248, 57344, 61440, 65536] ∧
    (as_define_stack ⟨KSEG0 + 409600, []⟩
      ⟨⟨fun i => if i < 16 then (i + 1) * 4096 else 0, 0, 4096⟩, fun _ _ => 0⟩).1 =
      (0, some USERSTACK) ∧
    ¬ stackWindow USERSTACK := by
  refine ⟨by decide, ?_, by decide⟩
  exact (claim_C7 ⟨KSEG0 + 409600, []⟩
    ⟨⟨fun i => if i < 16 then (i + 1) * 4096 else 0, 0, 4096⟩, fun _ _ => 0⟩
    [4096, 8192, 12288, 16384, 20480, 24576, 28672, 32768, 36864, 40960,
      45056, 49152, 53248, 57344, 61440, 65536]
    (by decide) (by decide) (by decide) (by decide) (by decide)).1

/-- C10.  For every page of the aligned range of a successful
as_define_region (vbase = vaddr & PAGE_FRAME, npages pages from the
rounded-up size), the final level-2 entry of that page — read through
the final level-1 slot — is 0, unconditionally: an entry that already
held a valid mapping is overwritten with 0.  The previously mapped
frame is neither kept (the entry no longer refers to it) nor freed back
to the allocator: any frame that was off the free list before the call
is still off the free list after it (the loop only pops frames, it
never pushes), so the old frame is stranded.  The region node is
appended with the aligned base/size. -/
theorem claim_C10 (as : addrspace) (vaddr sz readable writeable executable : Nat)
    (s : VMState) (ch : List Nat) (npages vbase : Nat)
    (hvb : vbase = pageFrame vaddr)
    (hnp : npages = pageFrame (sz + (vaddr &&& 0xfff) + PAGE_SIZE - 1) / PAGE_SIZE)
    (h1 : GoodFrees s.fs ch) (h2 : npages ≤ ch.length)
    (h3 : ∀ f ∈ ch, f + KSEG0 ≠ as.as_pagetable)
    (h4 : ∀ k ∈ List.range npages, ∀ f ∈ ch,
      s.mem as.as_pagetable (4 * idx1 (vbase + PAGE_SIZE * k)) ≠ 0 →
      s.mem as.as_pagetable (4 * idx1 (vbase + PAGE_SIZE * k)) ≠ f + KSEG0)
    (h5 : ∀ k ∈ List.range npages,
      s.mem as.as_pagetable (4 * idx1 (vbase + PAGE_SIZE * k)) ≠ as.as_pagetable) :
    (as_define_region as vaddr sz readable writeable executable s).1.1 = 0 ∧
    (as_define_region as vaddr sz readable writeable executable s).1.2.as_regions_start =
      as.as_regions_start ++
        [⟨vbase, npages, readable ||| writeable ||| executable⟩] ∧
    (∀ k ∈ List.range npages,
      (as_define_region as vaddr sz readable writeable executable s).2.mem
        ((as_define_region as vaddr sz readable writeable executable s).2.mem
          as.as_pagetable (4 * idx1 (vbase + PAGE_SIZE * k)))
        (4 * idx2 (vbase + PAGE_SIZE * k)) = 0) ∧
    (∀ g, g ≠ 0 → offList s.fs g →
      offList (as_define_region as vaddr sz readable writeable executable s).2.fs g) := by
  have hsz : pageFrame (sz + (vaddr &&& 0xfff) + PAGE_SIZE - 1) / PAGE_SIZE = npages := hnp.symm
  have hvb' : pageFrame vaddr = vbase := hvb.symm
  have hlen : ((List.range npages).map fun k => vbase + PAGE_SIZE * k).length ≤ ch.length := by
    simpa using h2
  have hsp := forcePages_spec as.as_pagetable
    ((List.range npages).map fun k => vbase + PAGE_SIZE * k) s ch h1 hlen h3
    (fun v hv g hg => by
      obtain ⟨k, hk, rfl⟩ := List.mem_map.mp hv
      exact h4 k hk g hg)
    (fun v hv => by
      obtain ⟨k, hk, rfl⟩ := List.mem_map.mp hv
      exact h5 k hk)
  obtain ⟨q1, q2, q3, _, _⟩ := hsp
  simp only [as_define_region, hvb', hsz]
  refine ⟨q1, trivial, ?_, q3⟩
  intro k hk
  exact (q2 (vbase + PAGE_SIZE * k) (List.mem_map.mpr ⟨k, hk, rfl⟩)).2

theorem claim_C10_witness :
    (16384 : Nat) = pageFrame 16384 ∧
    (1 : Nat) = pageFrame (4096 + (16384 &&& 0xfff) + PAGE_SIZE - 1) / PAGE_SIZE ∧
    GoodFrees (⟨⟨fun _ => 0, 0, 4096⟩,
      fun p q =>
        if p = KSEG0 + 409600 ∧ q = 0 then KSEG0 + 819200
        else if p = KSEG0 + 819200 ∧ q = 16 then KSEG0 + 1228800 + 1
        else 0⟩ : VMState).fs [4096] ∧
    (⟨⟨fun _ => 0, 0, 4096⟩,
      fun p q =>
        if p = KSEG0 + 409600 ∧ q = 0 then KSEG0 + 819200
        else if p = KSEG0 + 819200 ∧ q = 16 then KSEG0 + 1228800 + 1
        else 0⟩ : VMState).mem (KSEG0 + 819200) (4 * idx2 16384) &&&
        PTE_VALID ≠ 0 ∧
    (as_define_region ⟨KSEG0 + 409600, []⟩ 16384 4096 4 2 0
      ⟨⟨fun _ => 0, 0, 4096⟩,
        fun p q =>
          if p = KSEG0 + 409600 ∧ q = 0 then KSEG0 + 819200
          else if p = KSEG0 + 819200 ∧ q = 16 then KSEG0 + 1228800 + 1
          else 0⟩).2.mem
      ((as_define_region ⟨KSEG0 + 409600, []⟩ 16384 4096 4 2 0
        ⟨⟨fun _ => 0, 0, 4096⟩,
          fun p q =>
            if p = KSEG0 + 409600 ∧ q = 0 then KSEG0 + 819200
            else if p = KSEG0 + 819200 ∧ q = 16 then KSEG0 + 1228800 + 1
            else 0⟩).2.mem (KSEG0 + 409600) (4 * idx1 16384))
      (4 * idx2 16384) = 0 := by
  refine ⟨by decide, by decide, by decide, by decide, ?_⟩
  have h := (claim_C10 ⟨KSEG0 + 409600, []⟩ 16384 4096 4 2 0
    ⟨⟨fun _ => 0, 0, 4096⟩,
      fun p q =>
        if p = KSEG0 + 409600 ∧ q = 0 then KSEG0 + 819200
        else if p = KSEG0 + 819200 ∧ q = 16 then KSEG0 + 1228800 + 1
        else 0⟩ [4096] 1 16384
    (by decide) (by decide) (by decide) (by decide) (by decide)
    (by decide) (by decide)).2.2.1
  exact h 0 (by decide)

theorem tlbScan_none_iff (ehi elo : Nat) (tlb : Nat → Nat × Nat) :
    ∀ ks : List Nat, tlbScan ehi elo tlb ks = none ↔
      ∀ k ∈ ks, (tlb k).2 &&& TLBLO_VALID ≠ 0
  | [] => by simp [tlbScan]
  | k :: rest => by
    by_cases hk : (tlb k).2 &&& TLBLO_VALID ≠ 0
    · simp only [tlbScan, if_pos hk]
      rw [tlbScan_none_iff ehi elo tlb rest]
      constructor
      · intro h j hj
        rcases List.mem_cons.mp hj with hj | hj
        · subst hj
          exact hk
        · exact h j hj
      · intro h j hj
        exact h j (List.mem_cons_of_mem _ hj)
    · simp only [tlbScan, if_neg hk]
      constructor
      · intro h
        exact absurd h (by simp)
      · intro h
        exact absurd (h k (List.mem_cons_self k rest)) (by simpa using hk)

theorem tlbScan_some (ehi elo : Nat) (tlb : Nat → Nat × Nat) :
    ∀ (ks : List Nat) (t : Nat → Nat × Nat), tlbScan ehi elo tlb ks = some t →
      ∃ k ∈ ks, (tlb k).2 &&& TLBLO_VALID = 0 ∧
        t = fun j => if j = k then (ehi, elo) else tlb j
  | [], t => by simp [tlbScan]
  | k :: rest, t => by
    by_cases hk : (tlb k).2 &&& TLBLO_VALID ≠ 0
    · simp only [tlbScan, if_pos hk]
      intro h
      obtain ⟨j, hj, hv, he⟩ := tlbScan_some ehi elo tlb rest t h
      exact ⟨j, List.mem_cons_of_mem _ hj, hv, he⟩
    · simp only [tlbScan, if_neg hk]
      intro h
      refine ⟨k, List.mem_cons_self k rest, by simpa using hk, ?_⟩
      exact (Option.some.injEq _ _ ▸ h).symm

/-- The TLB-refill step writes {ehi, elo} into exactly one slot: the
first invalid slot when one exists (leaving every valid slot as it
was), and the tlb_random slot r only when all NUM_TLB slots are
valid. -/
theorem tlbRefill_spec (ehi elo r : Nat) (tlb : Nat → Nat × Nat) :
    ∃ k, tlbRefill ehi elo r tlb = (fun j => if j = k then (ehi, elo) else tlb j) ∧
      ((∃ k0 ∈ List.range NUM_TLB, (tlb k0).2 &&& TLBLO_VALID = 0) →
        k ∈ List.range NUM_TLB ∧ (tlb k).2 &&& TLBLO_VALID = 0) ∧
      ((∀ k0 ∈ List.range NUM_TLB, (tlb k0).2 &&& TLBLO_VALID ≠ 0) → k = r) := by
  unfold tlbRefill
  cases hscan : tlbScan ehi elo tlb (List.range NUM_TLB) with
  | none =>
    refine ⟨r, rfl, ?_, fun _ => rfl⟩
    intro ⟨k0, hk0, hv⟩
    exact absurd ((tlbScan_none_iff ehi elo tlb _).mp hscan k0 hk0) (by simp [hv])
  | some t =>
    obtain ⟨k, hk, hv, he⟩ := tlbScan_some ehi elo tlb _ t hscan
    refine ⟨k, he, fun _ => ⟨hk, hv⟩, ?_⟩
    intro hall
    exact absurd hv (by simpa using hall k hk)

theorem vm_fault_tlb (ft fa : Nat) (aso : Option addrspace) (r : Nat) (s : VMState)
    (tlb : Nat → Nat × Nat)
    (hok : (vm_fault ft fa aso r s tlb).1 = KR.ok 0) :
    ∃ elo0, (vm_fault ft fa aso r s tlb).2.2 =
      tlbRefill (pageFrame fa) (elo0 ||| TLBLO_VALID) r tlb := by
  by_cases h1 : ft = VM_FAULT_READONLY
  · simp only [vm_fault, if_pos h1] at hok
    simp [EFAULT, EINVAL] at hok
  by_cases h2 : ft = VM_FAULT_READ ∨ ft = VM_FAULT_WRITE
  case neg =>
    simp only [vm_fault, if_neg h1, if_neg h2] at hok
    simp [EFAULT, EINVAL] at hok
  cases aso with
  | none =>
    simp only [vm_fault, if_neg h1, if_pos h2] at hok
    simp [EFAULT, EINVAL] at hok
  | some as =>
  by_cases hemp : as.as_regions_start = []
  · simp only [vm_fault, if_neg h1, if_pos h2, if_pos hemp] at hok
    simp [EFAULT, EINVAL] at hok
  simp only [vm_fault, if_neg h1, if_pos h2, if_neg hemp] at hok ⊢
  cases hfr : findRegion as.as_regions_start (pageFrame fa) with
  | kpanic =>
    rw [hfr] at hok
    simp [EFAULT, EINVAL] at hok
  | ok ro =>
  rw [hfr] at hok
  cases ro with
  | some rg =>
    simp only at hok ⊢
    by_cases hfa0 : pageFrame fa = 0
    · simp only [hfa0] at hok
      simp [EFAULT, USERSTACK, VM_STACKPAGES, PAGE_SIZE] at hok
    · simp [hfa0] at hok ⊢
      repeat' split at hok
      all_goals try simp at hok
      all_goals try simp only [*]
      all_goals exact ⟨_, rfl⟩
  | none =>
    simp only at hok ⊢
    by_cases hwin : USERSTACK - VM_STACKPAGES * PAGE_SIZE ≤ pageFrame fa ∧
        pageFrame fa < USERSTACK
    · have hfa0 : ¬ (pageFrame fa = 0) := by
        simp only [USERSTACK, VM_STACKPAGES, PAGE_SIZE] at hwin
        omega
      simp [hwin, hfa0] at hok ⊢
      repeat' split at hok
      all_goals try simp at hok
      all_goals try simp only [*]
      all_goals exact ⟨_, rfl⟩
    · rw [if_neg hwin] at hok
      simp [EFAULT] at hok

/-- C9.  Every successful vm_fault installs exactly one new TLB entry —
the final TLB equals the old one overwritten at a single slot k with
{page-aligned fault address, entry-lo with the valid bit set} — and the
refill never evicts a valid entry while an invalid slot exists: when
some slot among the NUM_TLB slots is invalid, the written slot k is an
invalid one and every valid entry is preserved unchanged; only when all
NUM_TLB slots are valid is the single overwritten slot the
pseudo-randomly chosen one (the tlb_random oracle r). -/
theorem claim_C9 (faulttype faultaddress : Nat) (aso : Option addrspace)
    (r : Nat) (s : VMState) (tlb : Nat → Nat × Nat)
    (hok : (vm_fault faulttype faultaddress aso r s tlb).1 = KR.ok 0) :
    ∃ k elo,
      (vm_fault faulttype faultaddress aso r s tlb).2.2 =
        (fun j => if j = k then (pageFrame faultaddress, elo) else tlb j) ∧
      elo &&& TLBLO_VALID ≠ 0 ∧
      ((∃ k0 ∈ List.range NUM_TLB, (tlb k0).2 &&& TLBLO_VALID = 0) →
        k ∈ List.range NUM_TLB ∧ (tlb k).2 &&& TLBLO_VALID = 0 ∧
        ∀ j, (tlb j).2 &&& TLBLO_VALID ≠ 0 →
          (vm_fault faulttype faultaddress aso r s tlb).2.2 j = tlb j) ∧
      ((∀ k0 ∈ List.range NUM_TLB, (tlb k0).2 &&& TLBLO_VALID ≠ 0) → k = r) := by
  obtain ⟨elo0, he⟩ := vm_fault_tlb _ _ _ _ _ _ hok
  obtain ⟨k, hk1, hk2, hk3⟩ :=
    tlbRefill_spec (pageFrame faultaddress) (elo0 ||| TLBLO_VALID) r tlb
  refine ⟨k, elo0 ||| TLBLO_VALID, by rw [he, hk1],
    by rw [or_and_self]; decide, ?_, hk3⟩
  intro hex
  obtain ⟨hkr, hkv⟩ := hk2 hex
  refine ⟨hkr, hkv, ?_⟩
  intro j hj
  rw [he, hk1]
  have hjk : j ≠ k := by
    intro hjk
    subst hjk
    exact hj hkv
  simp [hjk]

theorem claim_C9_witness :
    (vm_fault 0 4096
      (some ⟨KSEG0 + 409600, [⟨4096, 1, 6⟩]⟩) 3
      ⟨⟨fun _ => 0, 0, 0⟩,
        fun p q =>
          if p = KSEG0 + 409600 ∧ q = 0 then KSEG0 + 819200
          else if p = KSEG0 + 819200 ∧ q = 4 then KSEG0 + 1228800 + 1
          else 0⟩
      (fun _ => (0, 0))).1 = KR.ok 0 ∧
    ∃ k elo,
      (vm_fault 0 4096
        (some ⟨KSEG0 + 409600, [⟨4096, 1, 6⟩]⟩) 3
        ⟨⟨fun _ => 0, 0, 0⟩,
          fun p q =>
            if p = KSEG0 + 409600 ∧ q = 0 then KSEG0 + 819200
            else if p = KSEG0 + 819200 ∧ q = 4 then KSEG0 + 1228800 + 1
            else 0⟩
        (fun _ => (0, 0))).2.2 =
        (fun j => if j = k then (pageFrame 4096, elo) else (fun _ => ((0 : Nat), (0 : Nat))) j) ∧
      elo &&& TLBLO_VALID ≠ 0 ∧
      ((∃ k0 ∈ List.range NUM_TLB,
          ((fun _ => ((0 : Nat), (0 : Nat))) k0).2 &&& TLBLO_VALID = 0) →
        k ∈ List.range NUM_TLB ∧
        ((fun _ => ((0 : Nat), (0 : Nat))) k).2 &&& TLBLO_VALID = 0 ∧
        ∀ j, ((fun _ => ((0 : Nat), (0 : Nat))) j).2 &&& TLBLO_VALID ≠ 0 →
          (vm_fault 0 4096
            (some ⟨KSEG0 + 409600, [⟨4096, 1, 6⟩]⟩) 3
            ⟨⟨fun _ => 0, 0, 0⟩,
              fun p q =>
                if p = KSEG0 + 409600 ∧ q = 0 then KSEG0 + 819200
                else if p = KSEG0 + 819200 ∧ q = 4 then KSEG0 + 1228800 + 1
                else 0⟩
            (fun _ => (0, 0))).2.2 j = (fun _ => ((0 : Nat), (0 : Nat))) j) ∧
      ((∀ k0 ∈ List.range NUM_TLB,
          ((fun _ => ((0 : Nat), (0 : Nat))) k0).2 &&& TLBLO_VALID ≠ 0) → k = 3) := by
  refine ⟨by decide, ?_⟩
  exact claim_C9 0 4096 (some ⟨KSEG0 + 409600, [⟨4096, 1, 6⟩]⟩) 3
    ⟨⟨fun _ => 0, 0, 0⟩,
      fun p q =>
        if p = KSEG0 + 409600 ∧ q = 0 then KSEG0 + 819200
        else if p = KSEG0 + 819200 ∧ q = 4 then KSEG0 + 1228800 + 1
        else 0⟩
    (fun _ => (0, 0)) (by decide)

theorem vm_fault_hit (ft fa : Nat) (as : addrspace) (r : Nat) (s : VMState)
    (tlb : Nat → Nat × Nat) (rg : as_region)
    (hft : ft = VM_FAULT_READ ∨ ft = VM_FAULT_WRITE)
    (hemp : ¬ as.as_regions_start = [])
    (hfind : findRegion as.as_regions_start (pageFrame fa) = KR.ok (some rg))
    (hfa0 : ¬ pageFrame fa = 0)
    (htne : ¬ s.mem as.as_pagetable (4 * idx1 (pageFrame fa)) = 0)
    (hval : ¬ s.mem (s.mem as.as_pagetable (4 * idx1 (pageFrame fa)))
        (4 * idx2 (pageFrame fa)) &&& PTE_VALID = 0) :
    (vm_fault ft fa (some as) r s tlb).1 = KR.ok 0 ∧
    (vm_fault ft fa (some as) r s tlb).2.1 = s := by
  have h1 : ¬ ft = VM_FAULT_READONLY := by
    rcases hft with h | h <;> subst h <;> decide
  simp only [vm_fault, if_neg h1, if_pos hft, if_neg hemp, hfind]
  simp [hfa0, htne, hval]

theorem vm_fault_miss (ft fa : Nat) (as : addrspace) (r : Nat) (s : VMState)
    (tlb : Nat → Nat × Nat) (rg : as_region) (f : Nat) (fl : List Nat)
    (hft : ft = VM_FAULT_READ ∨ ft = VM_FAULT_WRITE)
    (hemp : ¬ as.as_regions_start = [])
    (hfind : findRegion as.as_regions_start (pageFrame fa) = KR.ok (some rg))
    (hfa0 : ¬ pageFrame fa = 0)
    (htne : ¬ s.mem as.as_pagetable (4 * idx1 (pageFrame fa)) = 0)
    (he0 : s.mem (s.mem as.as_pagetable (4 * idx1 (pageFrame fa)))
        (4 * idx2 (pageFrame fa)) = 0)
    (hch : GoodFrees s.fs (f :: fl)) :
    (vm_fault ft fa (some as) r s tlb).1 = KR.ok 0 ∧
    (vm_fault ft fa (some as) r s tlb).2.1.fs = (getppages 1 s.fs).2 ∧
    GoodFrees (vm_fault ft fa (some as) r s tlb).2.1.fs fl ∧
    (∀ p q, (vm_fault ft fa (some as) r s tlb).2.1.mem p q =
      if p = s.mem as.as_pagetable (4 * idx1 (pageFrame fa)) ∧
          q = 4 * idx2 (pageFrame fa) then (f + KSEG0) ||| PTE_VALID
      else if p = f + KSEG0 then 0
      else s.mem p q) := by
  obtain ⟨ha1, ha2, ha3, _, _⟩ := alloc_kpage_pop s f fl hch
  have h1 : ¬ ft = VM_FAULT_READONLY := by
    rcases hft with h | h <;> subst h <;> decide
  have hKne : ¬ (alloc_kpage s).1 = 0 := by
    rw [ha1]
    simp [KSEG0]
  have hfseq : (alloc_kpage s).2.fs = (getppages 1 s.fs).2 := by
    simp only [alloc_kpage]
    rw [alloc_kpages_fs]
  simp only [vm_fault, if_neg h1, if_pos hft, if_neg hemp, hfind]
  simp only [writeMem, as_zero_region]
  simp [hfa0, htne, he0, hKne, ha1, ha2, KSEG0]
  exact ⟨hfseq, ha3⟩

/-- C3.  In an address space where as_define_region(as, V, 2 pages,
r=1, w=1, x=0) has succeeded (the region scan finds a region for both
pages, the level-2 tables are pre-created, both level-2 entries are 0)
and no page of the range is mapped: a first read-miss or write-miss
fault at V succeeds and installs the freshly allocated free-list head
f1 — zero-filled — as the valid level-2 entry of V's page; a second
fault at any address of that same page succeeds and leaves the whole
kernel state untouched (the identical frame is reused, nothing is
allocated); a fault at V + PAGE_SIZE succeeds and installs the next
free frame f2, a different frame from f1. -/
theorem claim_C3 (as : addrspace) (V : Nat) (rg rg2 : as_region)
    (s : VMState) (f1 f2 : Nat) (rest : List Nat)
    (ft r : Nat) (tlb : Nat → Nat × Nat)
    (hft : ft = VM_FAULT_READ ∨ ft = VM_FAULT_WRITE)
    (hemp : ¬ as.as_regions_start = [])
    (hV32 : V + PAGE_SIZE < 2 ^ 32) (hVal : V % PAGE_SIZE = 0) (hV0 : V ≠ 0)
    (hfind : findRegion as.as_regions_start V = KR.ok (some rg))
    (hfind2 : findRegion as.as_regions_start (V + PAGE_SIZE) = KR.ok (some rg2))
    (htne : ¬ s.mem as.as_pagetable (4 * idx1 V) = 0)
    (htne2 : ¬ s.mem as.as_pagetable (4 * idx1 (V + PAGE_SIZE)) = 0)
    (he0 : s.mem (s.mem as.as_pagetable (4 * idx1 V)) (4 * idx2 V) = 0)
    (he02 : s.mem (s.mem as.as_pagetable (4 * idx1 (V + PAGE_SIZE)))
      (4 * idx2 (V + PAGE_SIZE)) = 0)
    (hch : GoodFrees s.fs (f1 :: f2 :: rest))
    (hf1pt : f1 + KSEG0 ≠ as.as_pagetable)
    (hf1t : f1 + KSEG0 ≠ s.mem as.as_pagetable (4 * idx1 V))
    (hf1t2 : f1 + KSEG0 ≠ s.mem as.as_pagetable (4 * idx1 (V + PAGE_SIZE)))
    (htpt : s.mem as.as_pagetable (4 * idx1 V) ≠ as.as_pagetable)
    (hNoAlias : ¬ (s.mem as.as_pagetable (4 * idx1 (V + PAGE_SIZE)) =
        s.mem as.as_pagetable (4 * idx1 V) ∧ idx2 (V + PAGE_SIZE) = idx2 V)) :
    (vm_fault ft V (some as) r s tlb).1 = KR.ok 0 ∧
    (vm_fault ft V (some as) r s tlb).2.1.mem
      (s.mem as.as_pagetable (4 * idx1 V)) (4 * idx2 V) =
      f1 + KSEG0 + PTE_VALID ∧
    (∀ o, (vm_fault ft V (some as) r s tlb).2.1.mem (f1 + KSEG0) o = 0) ∧
    GoodFrees (vm_fault ft V (some as) r s tlb).2.1.fs (f2 :: rest) ∧
    (∀ a ft2 r2 tlb2, (ft2 = VM_FAULT_READ ∨ ft2 = VM_FAULT_WRITE) →
      pageFrame a = V →
      (vm_fault ft2 a (some as) r2 (vm_fault ft V (some as) r s tlb).2.1 tlb2).1 =
        KR.ok 0 ∧
      (vm_fault ft2 a (some as) r2 (vm_fault ft V (some as) r s tlb).2.1 tlb2).2.1 =
        (vm_fault ft V (some as) r s tlb).2.1) ∧
    (∀ ft3 r3 tlb3, (ft3 = VM_FAULT_READ ∨ ft3 = VM_FAULT_WRITE) →
      (vm_fault ft3 (V + PAGE_SIZE) (some as) r3
        (vm_fault ft V (some as) r s tlb).2.1 tlb3).1 = KR.ok 0 ∧
      (vm_fault ft3 (V + PAGE_SIZE) (some as) r3
        (vm_fault ft V (some as) r s tlb).2.1 tlb3).2.1.mem
        (s.mem as.as_pagetable (4 * idx1 (V + PAGE_SIZE)))
        (4 * idx2 (V + PAGE_SIZE)) = f2 + KSEG0 + PTE_VALID ∧
      f2 + KSEG0 ≠ f1 + KSEG0) := by
  have hpfV : pageFrame V = V := by
    rw [pageFrame_eq V (by omega)]
    omega
  have hVPal : (V + PAGE_SIZE) % PAGE_SIZE = 0 := by
    simp only [PAGE_SIZE] at hVal ⊢
    omega
  have hpfV2 : pageFrame (V + PAGE_SIZE) = V + PAGE_SIZE := by
    rw [pageFrame_eq _ hV32]
    omega
  have hf1al : f1 % PAGE_SIZE = 0 := (hch.2.2.2 f1 (List.mem_cons_self _ _)).1
  have hf2al : f2 % PAGE_SIZE = 0 :=
    (hch.2.2.2 f2 (List.mem_cons_of_mem _ (List.mem_cons_self _ _))).1
  have hf1kal : (f1 + KSEG0) % PAGE_SIZE = 0 := by
    simp only [PAGE_SIZE, KSEG0] at hf1al ⊢
    omega
  have hf2kal : (f2 + KSEG0) % PAGE_SIZE = 0 := by
    simp only [PAGE_SIZE, KSEG0] at hf2al ⊢
    omega
  have hor1 : (f1 + KSEG0) ||| PTE_VALID = f1 + KSEG0 + PTE_VALID :=
    aligned_or_small _ _ hf1kal (by norm_num [PTE_VALID, PAGE_SIZE])
  have hor2 : (f2 + KSEG0) ||| PTE_VALID = f2 + KSEG0 + PTE_VALID :=
    aligned_or_small _ _ hf2kal (by norm_num [PTE_VALID, PAGE_SIZE])
  obtain ⟨hA, hBfs, hBgood, hBmem⟩ := vm_fault_miss ft V as r s tlb rg f1 (f2 :: rest)
    hft hemp (by rw [hpfV]; exact hfind) (by rw [hpfV]; exact hV0)
    (by rw [hpfV]; exact htne) (by rw [hpfV]; exact he0) hch
  rw [hpfV] at hBmem
  -- the level-1 slot of V is unchanged by the first fault
  have hslot : (vm_fault ft V (some as) r s tlb).2.1.mem as.as_pagetable (4 * idx1 V) =
      s.mem as.as_pagetable (4 * idx1 V) := by
    rw [hBmem]
    rw [if_neg (by intro hc; exact htpt hc.1.symm), if_neg (Ne.symm hf1pt)]
  have hslot2 : (vm_fault ft V (some as) r s tlb).2.1.mem as.as_pagetable
      (4 * idx1 (V + PAGE_SIZE)) = s.mem as.as_pagetable (4 * idx1 (V + PAGE_SIZE)) := by
    rw [hBmem]
    rw [if_neg (by intro hc; exact htpt hc.1.symm), if_neg (Ne.symm hf1pt)]
  have hentry : (vm_fault ft V (some as) r s tlb).2.1.mem
      (s.mem as.as_pagetable (4 * idx1 V)) (4 * idx2 V) = (f1 + KSEG0) ||| PTE_VALID := by
    rw [hBmem]
    rw [if_pos ⟨rfl, rfl⟩]
  have hentry2 : (vm_fault ft V (some as) r s tlb).2.1.mem
      (s.mem as.as_pagetable (4 * idx1 (V + PAGE_SIZE)))
      (4 * idx2 (V + PAGE_SIZE)) =
      s.mem (s.mem as.as_pagetable (4 * idx1 (V + PAGE_SIZE)))
        (4 * idx2 (V + PAGE_SIZE)) := by
    rw [hBmem]
    rw [if_neg (by
      intro hc
      exact hNoAlias ⟨hc.1, by omega⟩), if_neg (Ne.symm hf1t2)]
  refine ⟨hA, by rw [hentry, hor1], ?_, hBgood, ?_, ?_⟩
  · intro o
    rw [hBmem]
    rw [if_neg (by intro hc; exact hf1t hc.1), if_pos rfl]
  · intro a ft2 r2 tlb2 hft2 hpa
    have hh := vm_fault_hit ft2 a as r2 (vm_fault ft V (some as) r s tlb).2.1 tlb2 rg
      hft2 hemp (by rw [hpa]; exact hfind) (by rw [hpa]; exact hV0)
      (by rw [hpa, hslot]; exact htne)
      (by
        rw [hpa, hslot, hentry, hor1]
        have h3 : (f1 + KSEG0) % 4096 = 0 := hf1kal
        have h2 : (f1 + KSEG0 + PTE_VALID) &&& PTE_VALID =
            (f1 + KSEG0 + PTE_VALID) % 2 := Nat.and_one_is_mod _
        rw [h2]
        simp only [KSEG0] at h3 ⊢
        simp only [PTE_VALID]
        omega)
    exact hh
  · intro ft3 r3 tlb3 hft3
    obtain ⟨hC1, _, _, hCmem⟩ := vm_fault_miss ft3 (V + PAGE_SIZE) as r3
      (vm_fault ft V (some as) r s tlb).2.1 tlb3 rg2 f2 rest
      hft3 hemp (by rw [hpfV2]; exact hfind2) (by rw [hpfV2]; omega)
      (by rw [hpfV2, hslot2]; exact htne2)
      (by rw [hpfV2, hslot2, hentry2]; exact he02) hBgood
    rw [hpfV2] at hCmem
    have hf2ne1 : f2 ≠ f1 := by
      have := hch.2.1
      intro hc
      subst hc
      exact (List.nodup_cons.mp this).1 (List.mem_cons_self _ _)
    refine ⟨hC1, ?_, by simp only [KSEG0]; omega⟩
    rw [hCmem, hslot2]
    rw [if_pos ⟨rfl, rfl⟩, hor2]

theorem claim_C3_witness :
    GoodFrees (⟨fun i => if i = 1 then 8192 else 0, 0, 4096⟩ : FrameState)
      [4096, 8192] ∧
    (vm_fault 0 16384 (some ⟨KSEG0 + 409600, [⟨16384, 2, 6⟩]⟩) 0
      ⟨⟨fun i => if i = 1 then 8192 else 0, 0, 4096⟩,
        fun p q => if p = KSEG0 + 409600 ∧ q = 0 then KSEG0 + 819200 else 0⟩
      (fun _ => (0, 0))).1 = KR.ok 0 ∧
    (vm_fault 0 16384 (some ⟨KSEG0 + 409600, [⟨16384, 2, 6⟩]⟩) 0
      ⟨⟨fun i => if i = 1 then 8192 else 0, 0, 4096⟩,
        fun p q => if p = KSEG0 + 409600 ∧ q = 0 then KSEG0 + 819200 else 0⟩
      (fun _ => (0, 0))).2.1.mem
      ((⟨⟨fun i => if i = 1 then 8192 else 0, 0, 4096⟩,
        fun p q => if p = KSEG0 + 409600 ∧ q = 0 then KSEG0 + 819200 else 0⟩ :
          VMState).mem (KSEG0 + 409600) (4 * idx1 16384)) (4 * idx2 16384) =
      4096 + KSEG0 + PTE_VALID := by
  refine ⟨by decide, ?_, ?_⟩
  · exact (claim_C3 ⟨KSEG0 + 409600, [⟨16384, 2, 6⟩]⟩ 16384 ⟨16384, 2, 6⟩
      ⟨16384, 2, 6⟩
      ⟨⟨fun i => if i = 1 then 8192 else 0, 0, 4096⟩,
        fun p q => if p = KSEG0 + 409600 ∧ q = 0 then KSEG0 + 819200 else 0⟩
      4096 8192 [] 0 0 (fun _ => (0, 0))
      (by decide) (by decide) (by decide) (by decide) (by decide) (by decide)
      (by decide) (by decide) (by decide) (by decide) (by decide) (by decide)
      (by decide) (by decide) (by decide) (by decide) (by decide)).1
  · exact (claim_C3 ⟨KSEG0 + 409600, [⟨16384, 2, 6⟩]⟩ 16384 ⟨16384, 2, 6⟩
      ⟨16384, 2, 6⟩
      ⟨⟨fun i => if i = 1 then 8192 else 0, 0, 4096⟩,
        fun p q => if p = KSEG0 + 409600 ∧ q = 0 then KSEG0 + 819200 else 0⟩
      4096 8192 [] 0 0 (fun _ => (0, 0))
      (by decide) (by decide) (by decide) (by decide) (by decide) (by decide)
      (by decide) (by decide) (by decide) (by decide) (by decide) (by decide)
      (by decide) (by decide) (by decide) (by decide) (by decide)).2.1

theorem alloc_kpage_empty (s : VMState) (h : s.fs.freeframe = 0) :
    alloc_kpage s = (0, s) := by
  simp [alloc_kpage, alloc_kpages, getppages, h]

theorem copyRegions_ok (l : List as_region)
    (h : ∀ rg ∈ l, rg.as_vbase ≠ 0 ∧ rg.as_npages ≠ 0) :
    copyRegions l = .ok l := by
  induction l with
  | nil => rfl
  | cons rg rest ih =>
    obtain ⟨ha, hb⟩ := h rg (List.mem_cons_self rg rest)
    have h2 : copyRegions rest = .ok rest :=
      ih fun r hr => h r (List.mem_cons_of_mem _ hr)
    simp only [copyRegions]
    rw [if_neg (by simp [ha, hb]), h2]

theorem usedBy_table (s : VMState) (as : addrspace) (i : Nat)
    (hi : i ∈ List.range PTE_NUM) (h : s.mem as.as_pagetable (4 * i) ≠ 0) :
    UsedBy s as (s.mem as.as_pagetable (4 * i)) :=
  Or.inr (Or.inl ⟨i, hi, h, rfl⟩)

theorem usedBy_frame (s : VMState) (as : addrspace) (i j : Nat)
    (hi : i ∈ List.range PTE_NUM) (h : s.mem as.as_pagetable (4 * i) ≠ 0)
    (hj : j ∈ List.range PTE_NUM)
    (hv : s.mem (s.mem as.as_pagetable (4 * i)) (4 * j) &&& PTE_VALID ≠ 0) :
    UsedBy s as (pageFrame (s.mem (s.mem as.as_pagetable (4 * i)) (4 * j))) :=
  Or.inr (Or.inr ⟨i, hi, h, j, hj, hv, rfl⟩)

theorem copyL2_cons_valid (osrc ndst j : Nat) (rest : List Nat) (s : VMState)
    (f : Nat) (fl : List Nat) (hch : GoodFrees s.fs (f :: fl))
    (hval : s.mem osrc (4 * j) &&& PTE_VALID ≠ 0) :
    copyL2 osrc ndst (j :: rest) s =
      copyL2 osrc ndst rest
        (writeMem ndst (4 * j) ((f + KSEG0) ||| PTE_VALID)
          (copyPage (f + KSEG0) (pageFrame (s.mem osrc (4 * j)))
            { s with fs := (alloc_kpage s).2.fs })) := by
  obtain ⟨ha1, ha2, _⟩ := alloc_kpage_pop s f fl hch
  have hne : (alloc_kpage s).1 ≠ 0 := by
    rw [ha1]; simp only [KSEG0]; omega
  simp only [copyL2]
  rw [if_pos hval, if_neg hne]
  congr 1
  apply VMState_ext
  · rfl
  · intro p o
    simp [writeMem, copyPage, ha2, ha1]

theorem copyL2_cons_invalid (osrc ndst j : Nat) (rest : List Nat) (s : VMState)
    (hval : ¬ s.mem osrc (4 * j) &&& PTE_VALID ≠ 0) :
    copyL2 osrc ndst (j :: rest) s = copyL2 osrc ndst rest s := by
  simp only [copyL2]
  rw [if_neg hval]

theorem copyL2_spec (osrc ndst : Nat) (s₀ : VMState) (as : addrspace) :
    ∀ (js : List Nat) (s : VMState) (ch : List Nat),
    AGREE s s₀ as →
    UsedBy s₀ as osrc →
    (∀ j ∈ js, s₀.mem osrc (4 * j) &&& PTE_VALID ≠ 0 →
      UsedBy s₀ as (pageFrame (s₀.mem osrc (4 * j)))) →
    GoodFrees s.fs ch →
    (∀ f ∈ ch, ¬ UsedBy s₀ as (f + KSEG0)) →
    ¬ UsedBy s₀ as ndst →
    (∀ f ∈ ch, ndst ≠ f + KSEG0) →
    js.Nodup →
    needL2On s₀ osrc js ≤ ch.length →
    (copyL2 osrc ndst js s).1 = KR.ok () ∧
    AGREE (copyL2 osrc ndst js s).2 s₀ as ∧
    GoodFrees (copyL2 osrc ndst js s).2.fs (ch.drop (needL2On s₀ osrc js)) ∧
    (∀ j ∈ js,
      (s₀.mem osrc (4 * j) &&& PTE_VALID = 0 →
        (copyL2 osrc ndst js s).2.mem ndst (4 * j) = s.mem ndst (4 * j)) ∧
      (s₀.mem osrc (4 * j) &&& PTE_VALID ≠ 0 →
        ∃ q ∈ ch, q ∉ ch.drop (needL2On s₀ osrc js) ∧
          (copyL2 osrc ndst js s).2.mem ndst (4 * j) = q + KSEG0 + PTE_VALID ∧
          ∀ o, (copyL2 osrc ndst js s).2.mem (q + KSEG0) o =
            s₀.mem (pageFrame (s₀.mem osrc (4 * j))) o)) ∧
    (∀ o, (∀ j ∈ js, o ≠ 4 * j) →
      (copyL2 osrc ndst js s).2.mem ndst o = s.mem ndst o) ∧
    (∀ b, b ≠ ndst → (∀ f ∈ ch, b ≠ f + KSEG0) →
      ∀ o, (copyL2 osrc ndst js s).2.mem b o = s.mem b o) := by
  intro js
  induction js with
  | nil =>
    intro s ch hAg hosrc hfr hch hfresh hnd hndch hnodup hcnt
    refine ⟨rfl, hAg, ?_, ?_, ?_, ?_⟩
    · simpa [needL2On] using hch
    · intro j hj; exact absurd hj (List.not_mem_nil j)
    · intro o _; rfl
    · intro b _ _ o; rfl
  | cons j rest ih =>
    intro s ch hAg hosrc hfr hch hfresh hnd hndch hnodup hcnt
    have hAgo : s.mem osrc (4 * j) = s₀.mem osrc (4 * j) := hAg osrc hosrc (4 * j)
    have hjrest : j ∉ rest := (List.nodup_cons.mp hnodup).1
    have hnodup' : rest.Nodup := (List.nodup_cons.mp hnodup).2
    have hfr' : ∀ j' ∈ rest, s₀.mem osrc (4 * j') &&& PTE_VALID ≠ 0 →
        UsedBy s₀ as (pageFrame (s₀.mem osrc (4 * j'))) :=
      fun j' hj' => hfr j' (List.mem_cons_of_mem _ hj')
    by_cases hv : s₀.mem osrc (4 * j) &&& PTE_VALID = 0
    · -- invalid head entry: nothing happens for it
      have hstep : needL2On s₀ osrc (j :: rest) = needL2On s₀ osrc rest := by
        simp [needL2On, List.filter_cons, hv]
      have heq : copyL2 osrc ndst (j :: rest) s = copyL2 osrc ndst rest s :=
        copyL2_cons_invalid osrc ndst j rest s (by rw [hAgo, hv]; simp)
      rw [heq]
      obtain ⟨i1, i2, i3, i4, i5, i6⟩ :=
        ih s ch hAg hosrc hfr' hch hfresh hnd hndch hnodup'
          (by rw [hstep] at hcnt; exact hcnt)
      refine ⟨i1, i2, by rw [hstep]; exact i3, ?_, ?_, i6⟩
      · intro j' hj'
        rcases List.mem_cons.mp hj' with hEq | hmem
        · subst hEq
          constructor
          · intro _
            refine i5 (4 * j') ?_
            intro j2 hj2 h42
            exact hjrest ((by omega : j2 = j') ▸ hj2)
          · intro hvv
            exact absurd hv hvv
        · obtain ⟨c1, c2⟩ := i4 j' hmem
          refine ⟨c1, ?_⟩
          intro hval'
          obtain ⟨q, hqmem, hqdrop, hqval, hqcont⟩ := c2 hval'
          exact ⟨q, hqmem, by rw [hstep]; exact hqdrop, hqval, hqcont⟩
      · intro o ho
        exact i5 o (fun j2 hj2 => ho j2 (List.mem_cons_of_mem _ hj2))
    · -- valid head entry: pop a frame, copy the page, set the slot
      have hv' : s₀.mem osrc (4 * j) &&& PTE_VALID ≠ 0 := hv
      have hstep : needL2On s₀ osrc (j :: rest) = needL2On s₀ osrc rest + 1 := by
        simp [needL2On, List.filter_cons, hv']
      cases ch with
      | nil =>
        exfalso
        rw [hstep] at hcnt
        simp at hcnt
      | cons f fl =>
        have hfal : f % PAGE_SIZE = 0 := (hch.2.2.2 f (List.mem_cons_self f fl)).1
        have hfKal : (f + KSEG0) % PAGE_SIZE = 0 := by
          simp only [KSEG0, PAGE_SIZE] at hfal ⊢
          omega
        have hOr : (f + KSEG0) ||| PTE_VALID = f + KSEG0 + PTE_VALID :=
          aligned_or_small (f + KSEG0) PTE_VALID hfKal (by decide)
        have hfnotfl : f ∉ fl := (List.nodup_cons.mp hch.2.1).1
        have hfne : ndst ≠ f + KSEG0 := hndch f (List.mem_cons_self f fl)
        obtain ⟨ha1, ha2, haGF, _⟩ := alloc_kpage_pop s f fl hch
        have heq := copyL2_cons_valid osrc ndst j rest s f fl hch
          (by rw [hAgo]; exact hv')
        have hS1mem : ∀ p o,
            (writeMem ndst (4 * j) ((f + KSEG0) ||| PTE_VALID)
              (copyPage (f + KSEG0) (pageFrame (s.mem osrc (4 * j)))
                { s with fs := (alloc_kpage s).2.fs })).mem p o =
            if p = ndst ∧ o = 4 * j then f + KSEG0 + PTE_VALID
            else if p = f + KSEG0 then s₀.mem (pageFrame (s₀.mem osrc (4 * j))) o
            else s.mem p o := by
          intro p o
          by_cases h1 : p = ndst ∧ o = 4 * j
          · simp [writeMem, copyPage, h1, hOr]
          · by_cases h2 : p = f + KSEG0
            · have hc : s.mem (pageFrame (s₀.mem osrc (4 * j))) o =
                  s₀.mem (pageFrame (s₀.mem osrc (4 * j))) o :=
                hAg _ (hfr j (List.mem_cons_self j rest) hv') o
              have hnf : ¬(f + KSEG0 = ndst) := fun he => hfne he.symm
              simp [writeMem, copyPage, h1, h2, hAgo, hc, hnf]
            · simp [writeMem, copyPage, h1, h2]
        rw [heq]
        generalize hgen : (writeMem ndst (4 * j) ((f + KSEG0) ||| PTE_VALID)
          (copyPage (f + KSEG0) (pageFrame (s.mem osrc (4 * j)))
            { s with fs := (alloc_kpage s).2.fs })) = S1
        rw [hgen] at hS1mem
        have hGF1 : GoodFrees S1.fs fl := by
          rw [← hgen]; exact haGF
        have hAg1 : AGREE S1 s₀ as := by
          intro b hb o
          rw [hS1mem b o]
          have hbn : b ≠ ndst := fun he => hnd (he ▸ hb)
          have hbf : b ≠ f + KSEG0 :=
            fun he => hfresh f (List.mem_cons_self f fl) (he ▸ hb)
          rw [if_neg (fun hcc => hbn hcc.1), if_neg hbf]
          exact hAg b hb o
        obtain ⟨i1, i2, i3, i4, i5, i6⟩ :=
          ih S1 fl hAg1 hosrc hfr' hGF1
            (fun f' hf' => hfresh f' (List.mem_cons_of_mem _ hf'))
            hnd
            (fun f' hf' => hndch f' (List.mem_cons_of_mem _ hf'))
            hnodup'
            (by rw [hstep] at hcnt
                simp only [List.length_cons] at hcnt
                omega)
        refine ⟨i1, i2, ?_, ?_, ?_, ?_⟩
        · rw [hstep, List.drop_succ_cons]
          exact i3
        · intro j' hj'
          rcases List.mem_cons.mp hj' with hEq | hmem
          · subst hEq
            constructor
            · intro h0
              exact absurd h0 hv'
            · intro _
              refine ⟨f, List.mem_cons_self f fl, ?_, ?_, ?_⟩
              · rw [hstep, List.drop_succ_cons]
                intro hmem2
                exact hfnotfl (List.drop_subset _ _ hmem2)
              · have hsl : S1.mem ndst (4 * j') = f + KSEG0 + PTE_VALID := by
                  rw [hS1mem]; simp
                rw [← hsl]
                refine i5 (4 * j') ?_
                intro j2 hj2 h42
                exact hjrest ((by omega : j2 = j') ▸ hj2)
              · intro o
                have hfr_ne : f + KSEG0 ≠ ndst := fun he => hfne he.symm
                have hflne : ∀ f' ∈ fl, f + KSEG0 ≠ f' + KSEG0 := by
                  intro f' hf' he
                  exact hfnotfl ((by omega : f = f') ▸ hf')
                rw [i6 (f + KSEG0) hfr_ne hflne o, hS1mem]
                rw [if_neg (fun hcc => hfr_ne hcc.1), if_pos rfl]
          · obtain ⟨c1, c2⟩ := i4 j' hmem
            constructor
            · intro h0
              rw [c1 h0, hS1mem]
              have hne2 : ¬(ndst = ndst ∧ 4 * j' = 4 * j) := by
                rintro ⟨-, hcc⟩
                exact hjrest ((by omega : j' = j) ▸ hmem)
              rw [if_neg hne2, if_neg hfne]
            · intro hval'
              obtain ⟨q, hqmem, hqdrop, hqval, hqcont⟩ := c2 hval'
              refine ⟨q, List.mem_cons_of_mem _ hqmem, ?_, hqval, hqcont⟩
              rw [hstep, List.drop_succ_cons]
              exact hqdrop
        · intro o ho
          have hoj : o ≠ 4 * j := ho j (List.mem_cons_self j rest)
          rw [i5 o (fun j2 hj2 => ho j2 (List.mem_cons_of_mem _ hj2)), hS1mem]
          rw [if_neg (fun hcc => hoj hcc.2), if_neg hfne]
        · intro b hbn hbf o
          rw [i6 b hbn (fun f' hf' => hbf f' (List.mem_cons_of_mem _ hf')) o, hS1mem]
          rw [if_neg (fun hcc => hbn hcc.1), if_neg (hbf f (List.mem_cons_self f fl))]

theorem copyL2_safe (osrc ndst : Nat) (s₀ : VMState) (as : addrspace) :
    ∀ (js : List Nat) (s : VMState) (ch : List Nat),
    AGREE s s₀ as →
    UsedBy s₀ as osrc →
    (∀ j ∈ js, s₀.mem osrc (4 * j) &&& PTE_VALID ≠ 0 →
      UsedBy s₀ as (pageFrame (s₀.mem osrc (4 * j)))) →
    GoodFrees s.fs ch →
    (∀ f ∈ ch, ¬ UsedBy s₀ as (f + KSEG0)) →
    ¬ UsedBy s₀ as ndst →
    AGREE (copyL2 osrc ndst js s).2 s₀ as ∧
    ∃ n, GoodFrees (copyL2 osrc ndst js s).2.fs (ch.drop n) := by
  intro js
  induction js with
  | nil =>
    intro s ch hAg hosrc hfr hch hfresh hnd
    exact ⟨hAg, 0, by simpa using hch⟩
  | cons j rest ih =>
    intro s ch hAg hosrc hfr hch hfresh hnd
    have hAgo : s.mem osrc (4 * j) = s₀.mem osrc (4 * j) := hAg osrc hosrc (4 * j)
    have hfr' : ∀ j' ∈ rest, s₀.mem osrc (4 * j') &&& PTE_VALID ≠ 0 →
        UsedBy s₀ as (pageFrame (s₀.mem osrc (4 * j'))) :=
      fun j' hj' => hfr j' (List.mem_cons_of_mem _ hj')
    by_cases hv : s₀.mem osrc (4 * j) &&& PTE_VALID = 0
    · rw [copyL2_cons_invalid osrc ndst j rest s (by rw [hAgo, hv]; simp)]
      exact ih s ch hAg hosrc hfr' hch hfresh hnd
    · have hv' : s₀.mem osrc (4 * j) &&& PTE_VALID ≠ 0 := hv
      cases ch with
      | nil =>
        have hz : s.fs.freeframe = 0 := hch.1
        have he0 : alloc_kpage s = (0, s) := alloc_kpage_empty s hz
        have heq : copyL2 osrc ndst (j :: rest) s = (.kpanic, s) := by
          simp only [copyL2]
          rw [if_pos (by rw [hAgo]; exact hv')]
          simp [he0]
        rw [heq]
        exact ⟨hAg, 0, by simpa using hch⟩
      | cons f fl =>
        obtain ⟨ha1, ha2, haGF, _⟩ := alloc_kpage_pop s f fl hch
        rw [copyL2_cons_valid osrc ndst j rest s f fl hch (by rw [hAgo]; exact hv')]
        have hAg1 : AGREE (writeMem ndst (4 * j) ((f + KSEG0) ||| PTE_VALID)
            (copyPage (f + KSEG0) (pageFrame (s.mem osrc (4 * j)))
              { s with fs := (alloc_kpage s).2.fs })) s₀ as := by
          intro b hb o
          have hbn : ¬(b = ndst) := fun he => hnd (he ▸ hb)
          have hbf : ¬(b = f + KSEG0) :=
            fun he => hfresh f (List.mem_cons_self f fl) (he ▸ hb)
          simpa [writeMem, copyPage, hbn, hbf] using hAg b hb o
        obtain ⟨iAg, n, iGF⟩ :=
          ih _ fl hAg1 hosrc hfr' haGF
            (fun f' hf' => hfresh f' (List.mem_cons_of_mem _ hf')) hnd
        exact ⟨iAg, n + 1, by rw [List.drop_succ_cons]; exact iGF⟩

set_option maxRecDepth 4000 in
theorem copyPT_cons_absent (opt npt i : Nat) (rest : List Nat) (s : VMState)
    (ho1 : ¬ s.mem opt (4 * i) ≠ 0) :
    copyPT opt npt (i :: rest) s = copyPT opt npt rest s := by
  simp only [copyPT]
  rw [if_neg ho1]

set_option maxRecDepth 4000 in
theorem copyPT_cons_nomem (opt npt i : Nat) (rest : List Nat) (s : VMState)
    (ho1 : s.mem opt (4 * i) ≠ 0) (h : s.fs.freeframe = 0) :
    copyPT opt npt (i :: rest) s = (.kpanic, s) := by
  have he : alloc_kpage s = (0, s) := alloc_kpage_empty s h
  simp only [copyPT]
  rw [if_pos ho1]
  simp [he]

set_option maxRecDepth 4000 in
theorem copyPT_cons_present (opt npt i : Nat) (rest : List Nat) (s : VMState)
    (f : Nat) (fl : List Nat) (hch : GoodFrees s.fs (f :: fl))
    (ho1 : s.mem opt (4 * i) ≠ 0)
    (hon : opt ≠ npt) (hof : opt ≠ f + KSEG0) (hnf : npt ≠ f + KSEG0) :
    copyPT opt npt (i :: rest) s =
      (if (copyL2 (s.mem opt (4 * i)) (f + KSEG0) (List.range PTE_NUM)
            (as_zero_region (f + KSEG0) (writeMem npt (4 * i) (f + KSEG0)
              { s with fs := (alloc_kpage s).2.fs }))).1 = KR.kpanic then
        (KR.kpanic,
          (copyL2 (s.mem opt (4 * i)) (f + KSEG0) (List.range PTE_NUM)
            (as_zero_region (f + KSEG0) (writeMem npt (4 * i) (f + KSEG0)
              { s with fs := (alloc_kpage s).2.fs }))).2)
      else
        copyPT opt npt rest
          (copyL2 (s.mem opt (4 * i)) (f + KSEG0) (List.range PTE_NUM)
            (as_zero_region (f + KSEG0) (writeMem npt (4 * i) (f + KSEG0)
              { s with fs := (alloc_kpage s).2.fs }))).2) := by
  obtain ⟨ha1, ha2, _⟩ := alloc_kpage_pop s f fl hch
  have hne : (alloc_kpage s).1 ≠ 0 := by
    rw [ha1]; simp only [KSEG0]; omega
  simp only [copyPT]
  rw [if_pos ho1, if_neg hne]
  have hw : (writeMem npt (4 * i) (alloc_kpage s).1 (alloc_kpage s).2).mem
      npt (4 * i) = f + KSEG0 := by
    simp [writeMem, ha1]
  rw [hw]
  have hst : as_zero_region (f + KSEG0)
        (writeMem npt (4 * i) (alloc_kpage s).1 (alloc_kpage s).2)
      = as_zero_region (f + KSEG0) (writeMem npt (4 * i) (f + KSEG0)
        { s with fs := (alloc_kpage s).2.fs }) := by
    apply VMState_ext
    · rfl
    · intro p o
      simp [as_zero_region, writeMem, ha1, ha2]
  rw [hst]
  have hro : (as_zero_region (f + KSEG0) (writeMem npt (4 * i) (f + KSEG0)
      { s with fs := (alloc_kpage s).2.fs })).mem opt (4 * i) =
      s.mem opt (4 * i) := by
    simp [as_zero_region, writeMem, hof, hon]
  have hrn : (as_zero_region (f + KSEG0) (writeMem npt (4 * i) (f + KSEG0)
      { s with fs := (alloc_kpage s).2.fs })).mem npt (4 * i) =
      f + KSEG0 := by
    simp [as_zero_region, writeMem, hnf]
  rw [hro, hrn]
  rcases hcl : copyL2 (s.mem opt (4 * i)) (f + KSEG0) (List.range PTE_NUM)
      (as_zero_region (f + KSEG0) (writeMem npt (4 * i) (f + KSEG0)
        { s with fs := (alloc_kpage s).2.fs })) with ⟨r, s4⟩
  cases r with
  | kpanic => rw [if_pos rfl]
  | ok u => rw [if_neg (by simp)]


set_option maxRecDepth 4000 in
theorem copyPT_spec (opt npt : Nat) (s₀ : VMState) (as : addrspace) :
    ∀ (is : List Nat) (s : VMState) (ch : List Nat),
    AGREE s s₀ as →
    UsedBy s₀ as opt →
    (∀ i ∈ is, s₀.mem opt (4 * i) ≠ 0 → UsedBy s₀ as (s₀.mem opt (4 * i))) →
    (∀ i ∈ is, s₀.mem opt (4 * i) ≠ 0 →
      ∀ j ∈ List.range PTE_NUM,
        s₀.mem (s₀.mem opt (4 * i)) (4 * j) &&& PTE_VALID ≠ 0 →
        UsedBy s₀ as (pageFrame (s₀.mem (s₀.mem opt (4 * i)) (4 * j)))) →
    GoodFrees s.fs ch →
    (∀ f ∈ ch, ¬ UsedBy s₀ as (f + KSEG0)) →
    ¬ UsedBy s₀ as npt →
    (∀ f ∈ ch, npt ≠ f + KSEG0) →
    opt ≠ npt →
    is.Nodup →
    needPTOn s₀ opt is ≤ ch.length →
    (copyPT opt npt is s).1 = KR.ok () ∧
    AGREE (copyPT opt npt is s).2 s₀ as ∧
    GoodFrees (copyPT opt npt is s).2.fs (ch.drop (needPTOn s₀ opt is)) ∧
    (∀ i ∈ is,
      (s₀.mem opt (4 * i) = 0 →
        (copyPT opt npt is s).2.mem npt (4 * i) = s.mem npt (4 * i)) ∧
      (s₀.mem opt (4 * i) ≠ 0 →
        ∃ p ∈ ch, ¬ UsedBy s₀ as (p + KSEG0) ∧
          (copyPT opt npt is s).2.mem npt (4 * i) = p + KSEG0 ∧
          ∀ j ∈ List.range PTE_NUM,
            (s₀.mem (s₀.mem opt (4 * i)) (4 * j) &&& PTE_VALID = 0 →
              (copyPT opt npt is s).2.mem (p + KSEG0) (4 * j) = 0) ∧
            (s₀.mem (s₀.mem opt (4 * i)) (4 * j) &&& PTE_VALID ≠ 0 →
              ∃ q ∈ ch, ¬ UsedBy s₀ as (q + KSEG0) ∧
                (copyPT opt npt is s).2.mem (p + KSEG0) (4 * j) =
                  q + KSEG0 + PTE_VALID ∧
                ∀ o, (copyPT opt npt is s).2.mem (q + KSEG0) o =
                  s₀.mem (pageFrame (s₀.mem (s₀.mem opt (4 * i)) (4 * j))) o))) ∧
    (∀ o, (∀ i ∈ is, o ≠ 4 * i) →
      (copyPT opt npt is s).2.mem npt o = s.mem npt o) ∧
    (∀ b, b ≠ npt → (∀ f ∈ ch, b ≠ f + KSEG0) →
      ∀ o, (copyPT opt npt is s).2.mem b o = s.mem b o) := by
  intro is
  induction is with
  | nil =>
    intro s ch hAg hopt huse hfr hch hfresh hnpt hnptch hoptn hnodup hcnt
    refine ⟨rfl, hAg, ?_, ?_, ?_, ?_⟩
    · simpa [needPTOn] using hch
    · intro i hi; exact absurd hi (List.not_mem_nil i)
    · intro o _; rfl
    · intro b _ _ o; rfl
  | cons i rest ih =>
    intro s ch hAg hopt huse hfr hch hfresh hnpt hnptch hoptn hnodup hcnt
    have hAgopt : s.mem opt (4 * i) = s₀.mem opt (4 * i) := hAg opt hopt (4 * i)
    have hirest : i ∉ rest := (List.nodup_cons.mp hnodup).1
    have hnodup' : rest.Nodup := (List.nodup_cons.mp hnodup).2
    have huse' : ∀ i' ∈ rest, s₀.mem opt (4 * i') ≠ 0 →
        UsedBy s₀ as (s₀.mem opt (4 * i')) :=
      fun i' hi' => huse i' (List.mem_cons_of_mem _ hi')
    have hfr' : ∀ i' ∈ rest, s₀.mem opt (4 * i') ≠ 0 →
        ∀ j ∈ List.range PTE_NUM,
          s₀.mem (s₀.mem opt (4 * i')) (4 * j) &&& PTE_VALID ≠ 0 →
          UsedBy s₀ as (pageFrame (s₀.mem (s₀.mem opt (4 * i')) (4 * j))) :=
      fun i' hi' => hfr i' (List.mem_cons_of_mem _ hi')
    by_cases ho : s₀.mem opt (4 * i) = 0
    · -- absent level-1 slot: the loop skips it
      have hstep : needPTOn s₀ opt (i :: rest) = needPTOn s₀ opt rest := by
        simp [needPTOn, ho]
      rw [copyPT_cons_absent opt npt i rest s (by rw [hAgopt, ho]; simp)]
      obtain ⟨d1, d2, d3, d4, d5, d6⟩ :=
        ih s ch hAg hopt huse' hfr' hch hfresh hnpt hnptch hoptn hnodup'
          (by rw [hstep] at hcnt; exact hcnt)
      refine ⟨d1, d2, by rw [hstep]; exact d3, ?_, ?_, d6⟩
      · intro i' hi'
        rcases List.mem_cons.mp hi' with hEq | hmem
        · subst hEq
          refine ⟨fun _ => ?_, fun hcontra => absurd ho hcontra⟩
          refine d5 (4 * i') ?_
          intro i2 hi2 h42
          exact hirest ((by omega : i2 = i') ▸ hi2)
        · obtain ⟨c1', c2'⟩ := d4 i' hmem
          exact ⟨c1', c2'⟩
      · intro o hoo
        exact d5 o (fun i2 hi2 => hoo i2 (List.mem_cons_of_mem _ hi2))
    · -- present level-1 slot: allocate + zero a fresh table, run the inner copy
      have hstep : needPTOn s₀ opt (i :: rest) =
          1 + needL2On s₀ (s₀.mem opt (4 * i)) (List.range PTE_NUM) +
            needPTOn s₀ opt rest := by
        simp [needPTOn, ho]
      cases ch with
      | nil =>
        exfalso
        rw [hstep] at hcnt
        simp at hcnt
      | cons f fl =>
        have hfreshf : ¬ UsedBy s₀ as (f + KSEG0) :=
          hfresh f (List.mem_cons_self f fl)
        have hnff : npt ≠ f + KSEG0 := hnptch f (List.mem_cons_self f fl)
        have hof : opt ≠ f + KSEG0 := fun he => hfreshf (he ▸ hopt)
        have ho1 : s.mem opt (4 * i) ≠ 0 := by rw [hAgopt]; exact ho
        have hfnotfl : f ∉ fl := (List.nodup_cons.mp hch.2.1).1
        obtain ⟨ha1, ha2, haGF, _⟩ := alloc_kpage_pop s f fl hch
        have heq := copyPT_cons_present opt npt i rest s f fl hch ho1 hoptn hof hnff
        set S3 := as_zero_region (f + KSEG0) (writeMem npt (4 * i) (f + KSEG0)
          { s with fs := (alloc_kpage s).2.fs }) with hg3
        have hS3mem : ∀ p o, S3.mem p o =
            if p = f + KSEG0 then 0
            else if p = npt ∧ o = 4 * i then f + KSEG0
            else s.mem p o := by
          intro p o
          rw [hg3]
          rfl
        have hS3gf : GoodFrees S3.fs fl := by
          rw [hg3]; exact haGF
        rw [heq, hAgopt]
        have hAg3 : AGREE S3 s₀ as := by
          intro b hb o
          rw [hS3mem b o]
          have hbf : b ≠ f + KSEG0 := fun he => hfreshf (he ▸ hb)
          have hbn : b ≠ npt := fun he => hnpt (he ▸ hb)
          rw [if_neg hbf, if_neg (fun hcc => hbn hcc.1)]
          exact hAg b hb o
        have hndch3 : ∀ f' ∈ fl, f + KSEG0 ≠ f' + KSEG0 := by
          intro f' hf' he
          exact hfnotfl ((by omega : f = f') ▸ hf')
        obtain ⟨c1, c2, c3, c4, c5, c6⟩ :=
          copyL2_spec (s₀.mem opt (4 * i)) (f + KSEG0) s₀ as
            (List.range PTE_NUM) S3 fl hAg3 (huse i (List.mem_cons_self i rest) ho)
            (hfr i (List.mem_cons_self i rest) ho)
            hS3gf
            (fun f' hf' => hfresh f' (List.mem_cons_of_mem _ hf'))
            hfreshf hndch3 (List.nodup_range PTE_NUM)
            (by rw [hstep] at hcnt
                simp only [List.length_cons] at hcnt
                omega)
        rw [if_neg (by rw [c1]; simp)]
        set S4 := (copyL2 (s₀.mem opt (4 * i)) (f + KSEG0)
          (List.range PTE_NUM) S3).2 with hg4
        obtain ⟨d1, d2, d3, d4, d5, d6⟩ :=
          ih S4 (fl.drop (needL2On s₀ (s₀.mem opt (4 * i)) (List.range PTE_NUM)))
            c2 hopt huse' hfr' c3
            (fun f' hf' => hfresh f'
              (List.mem_cons_of_mem _ (List.drop_subset _ _ hf')))
            hnpt
            (fun f' hf' => hnptch f'
              (List.mem_cons_of_mem _ (List.drop_subset _ _ hf')))
            hoptn hnodup'
            (by rw [List.length_drop]
                rw [hstep] at hcnt
                simp only [List.length_cons] at hcnt
                omega)
        have hfKne : f + KSEG0 ≠ npt := fun he => hnff he.symm
        have hfdrop : ∀ f' ∈ fl.drop (needL2On s₀ (s₀.mem opt (4 * i))
            (List.range PTE_NUM)), f + KSEG0 ≠ f' + KSEG0 :=
          fun f' hf' => hndch3 f' (List.drop_subset _ _ hf')
        have hnptfl : ∀ f' ∈ fl, npt ≠ f' + KSEG0 :=
          fun f' hf' => hnptch f' (List.mem_cons_of_mem _ hf')
        refine ⟨d1, d2, ?_, ?_, ?_, ?_⟩
        · rw [(by rw [hstep]; omega :
            needPTOn s₀ opt (i :: rest) =
              (needL2On s₀ (s₀.mem opt (4 * i)) (List.range PTE_NUM) +
                needPTOn s₀ opt rest) + 1),
            List.drop_succ_cons]
          rw [List.drop_drop] at d3
          exact d3
        · intro i' hi'
          rcases List.mem_cons.mp hi' with hEq | hmem
          · subst hEq
            refine ⟨fun hz => absurd hz ho, fun _ => ?_⟩
            have hslot : S4.mem npt (4 * i') = f + KSEG0 := by
              rw [c6 npt hnff hnptfl (4 * i'), hS3mem]
              rw [if_neg hnff, if_pos ⟨rfl, rfl⟩]
            refine ⟨f, List.mem_cons_self f fl, hfreshf, ?_, ?_⟩
            · rw [d5 (4 * i') (fun i2 hi2 h42 =>
                hirest ((by omega : i2 = i') ▸ hi2)), hslot]
            · intro j hj
              obtain ⟨e1, e2⟩ := c4 j hj
              constructor
              · intro hz
                rw [d6 (f + KSEG0) hfKne hfdrop (4 * j), e1 hz, hS3mem]
                rw [if_pos rfl]
              · intro hval
                obtain ⟨q, hq1, hq2, hq3, hq4⟩ := e2 hval
                have hqKdrop : ∀ f' ∈ fl.drop (needL2On s₀ (s₀.mem opt (4 * i'))
                    (List.range PTE_NUM)), q + KSEG0 ≠ f' + KSEG0 := by
                  intro f' hf' he
                  exact hq2 ((by omega : q = f') ▸ hf')
                have hqnpt : q + KSEG0 ≠ npt :=
                  fun he => (hnptfl q hq1) he.symm
                refine ⟨q, List.mem_cons_of_mem _ hq1,
                  hfresh q (List.mem_cons_of_mem _ hq1), ?_, ?_⟩
                · rw [d6 (f + KSEG0) hfKne hfdrop (4 * j)]
                  exact hq3
                · intro o
                  rw [d6 (q + KSEG0) hqnpt hqKdrop o]
                  exact hq4 o
          · obtain ⟨c1', c2'⟩ := d4 i' hmem
            constructor
            · intro hz
              rw [c1' hz]
              rw [c6 npt hnff hnptfl (4 * i'), hS3mem]
              have hne4 : ¬(npt = npt ∧ 4 * i' = 4 * i) := by
                rintro ⟨-, hcc⟩
                exact hirest ((by omega : i' = i) ▸ hmem)
              rw [if_neg hnff, if_neg hne4]
            · intro hpres
              obtain ⟨p, hp1, hp2, hp3, hp4⟩ := c2' hpres
              refine ⟨p, List.mem_cons_of_mem _ (List.drop_subset _ _ hp1),
                hp2, hp3, ?_⟩
              intro j hj
              obtain ⟨e1, e2⟩ := hp4 j hj
              refine ⟨e1, ?_⟩
              intro hval
              obtain ⟨q, hq1, hq2, hq3, hq4⟩ := e2 hval
              exact ⟨q, List.mem_cons_of_mem _ (List.drop_subset _ _ hq1),
                hq2, hq3, hq4⟩
        · intro o hoo
          rw [d5 o (fun i2 hi2 => hoo i2 (List.mem_cons_of_mem _ hi2))]
          rw [c6 npt hnff hnptfl o, hS3mem]
          have hne4 : ¬(npt = npt ∧ o = 4 * i) := by
            rintro ⟨-, hcc⟩
            exact hoo i (List.mem_cons_self i rest) hcc
          rw [if_neg hnff, if_neg hne4]
        · intro b hbn hbf o
          have hbfK : b ≠ f + KSEG0 := hbf f (List.mem_cons_self f fl)
          rw [d6 b hbn (fun f' hf' => hbf f'
            (List.mem_cons_of_mem _ (List.drop_subset _ _ hf'))) o]
          rw [c6 b hbfK (fun f' hf' => hbf f' (List.mem_cons_of_mem _ hf')) o,
            hS3mem]
          rw [if_neg hbfK, if_neg (fun hcc => hbn hcc.1)]

set_option maxRecDepth 4000 in
theorem copyPT_safe (opt npt : Nat) (s₀ : VMState) (as : addrspace) :
    ∀ (is : List Nat) (s : VMState) (ch : List Nat),
    AGREE s s₀ as →
    UsedBy s₀ as opt →
    (∀ i ∈ is, s₀.mem opt (4 * i) ≠ 0 → UsedBy s₀ as (s₀.mem opt (4 * i))) →
    (∀ i ∈ is, s₀.mem opt (4 * i) ≠ 0 →
      ∀ j ∈ List.range PTE_NUM,
        s₀.mem (s₀.mem opt (4 * i)) (4 * j) &&& PTE_VALID ≠ 0 →
        UsedBy s₀ as (pageFrame (s₀.mem (s₀.mem opt (4 * i)) (4 * j)))) →
    GoodFrees s.fs ch →
    (∀ f ∈ ch, ¬ UsedBy s₀ as (f + KSEG0)) →
    ¬ UsedBy s₀ as npt →
    (∀ f ∈ ch, npt ≠ f + KSEG0) →
    opt ≠ npt →
    AGREE (copyPT opt npt is s).2 s₀ as := by
  intro is
  induction is with
  | nil =>
    intro s ch hAg _ _ _ _ _ _ _ _
    exact hAg
  | cons i rest ih =>
    intro s ch hAg hopt huse hfr hch hfresh hnpt hnptch hoptn
    have hAgopt : s.mem opt (4 * i) = s₀.mem opt (4 * i) := hAg opt hopt (4 * i)
    have huse' : ∀ i' ∈ rest, s₀.mem opt (4 * i') ≠ 0 →
        UsedBy s₀ as (s₀.mem opt (4 * i')) :=
      fun i' hi' => huse i' (List.mem_cons_of_mem _ hi')
    have hfr' : ∀ i' ∈ rest, s₀.mem opt (4 * i') ≠ 0 →
        ∀ j ∈ List.range PTE_NUM,
          s₀.mem (s₀.mem opt (4 * i')) (4 * j) &&& PTE_VALID ≠ 0 →
          UsedBy s₀ as (pageFrame (s₀.mem (s₀.mem opt (4 * i')) (4 * j))) :=
      fun i' hi' => hfr i' (List.mem_cons_of_mem _ hi')
    by_cases ho : s₀.mem opt (4 * i) = 0
    · rw [copyPT_cons_absent opt npt i rest s (by rw [hAgopt, ho]; simp)]
      exact ih s ch hAg hopt huse' hfr' hch hfresh hnpt hnptch hoptn
    · have ho1 : s.mem opt (4 * i) ≠ 0 := by rw [hAgopt]; exact ho
      cases ch with
      | nil =>
        have hz : s.fs.freeframe = 0 := hch.1
        rw [copyPT_cons_nomem opt npt i rest s ho1 hz]
        exact hAg
      | cons f fl =>
        have hfreshf : ¬ UsedBy s₀ as (f + KSEG0) :=
          hfresh f (List.mem_cons_self f fl)
        have hnff : npt ≠ f + KSEG0 := hnptch f (List.mem_cons_self f fl)
        have hof : opt ≠ f + KSEG0 := fun he => hfreshf (he ▸ hopt)
        obtain ⟨ha1, ha2, haGF, _⟩ := alloc_kpage_pop s f fl hch
        have heq := copyPT_cons_present opt npt i rest s f fl hch ho1 hoptn hof hnff
        set S3 := as_zero_region (f + KSEG0) (writeMem npt (4 * i) (f + KSEG0)
          { s with fs := (alloc_kpage s).2.fs }) with hg3
        have hS3mem : ∀ p o, S3.mem p o =
            if p = f + KSEG0 then 0
            else if p = npt ∧ o = 4 * i then f + KSEG0
            else s.mem p o := by
          intro p o
          rw [hg3]
          rfl
        have hS3gf : GoodFrees S3.fs fl := by
          rw [hg3]; exact haGF
        rw [heq, hAgopt]
        have hAg3 : AGREE S3 s₀ as := by
          intro b hb o
          rw [hS3mem b o]
          have hbf : b ≠ f + KSEG0 := fun he => hfreshf (he ▸ hb)
          have hbn : b ≠ npt := fun he => hnpt (he ▸ hb)
          rw [if_neg hbf, if_neg (fun hcc => hbn hcc.1)]
          exact hAg b hb o
        obtain ⟨cAg, n, cGF⟩ :=
          copyL2_safe (s₀.mem opt (4 * i)) (f + KSEG0) s₀ as
            (List.range PTE_NUM) S3 fl hAg3 (huse i (List.mem_cons_self i rest) ho)
            (hfr i (List.mem_cons_self i rest) ho)
            hS3gf
            (fun f' hf' => hfresh f' (List.mem_cons_of_mem _ hf'))
            hfreshf
        by_cases hk : (copyL2 (s₀.mem opt (4 * i)) (f + KSEG0)
            (List.range PTE_NUM) S3).1 = KR.kpanic
        · rw [if_pos hk]
          exact cAg
        · rw [if_neg hk]
          exact ih (copyL2 (s₀.mem opt (4 * i)) (f + KSEG0)
              (List.range PTE_NUM) S3).2 (fl.drop n)
            cAg hopt huse' hfr' cGF
            (fun f' hf' => hfresh f'
              (List.mem_cons_of_mem _ (List.drop_subset _ _ hf')))
            hnpt
            (fun f' hf' => hnptch f'
              (List.mem_cons_of_mem _ (List.drop_subset _ _ hf')))
            hoptn

theorem as_copy_root_fail (old : addrspace) (s : VMState)
    (h : s.fs.freeframe = 0) :
    as_copy old s = (.ok (ENOMEM, none), s) := by
  have he : alloc_kpage s = (0, s) := alloc_kpage_empty s h
  simp [as_copy, as_create, he]

theorem as_create_pop (s : VMState) (f : Nat) (fl : List Nat)
    (hch : GoodFrees s.fs (f :: fl)) :
    as_create s = (some { as_pagetable := f + KSEG0, as_regions_start := [] },
      as_zero_region (f + KSEG0) { s with fs := (alloc_kpage s).2.fs }) := by
  obtain ⟨ha1, _, _⟩ := alloc_kpage_pop s f fl hch
  have hne : (alloc_kpage s).1 ≠ 0 := by rw [ha1]; simp only [KSEG0]; omega
  simp only [as_create]
  rw [if_neg hne, ha1]
  rfl

set_option maxRecDepth 4000 in
theorem as_copy_eq (old : addrspace) (s : VMState) (f : Nat) (fl : List Nat)
    (hch : GoodFrees s.fs (f :: fl))
    (hne : old.as_regions_start ≠ [])
    (hrg : copyRegions old.as_regions_start = .ok old.as_regions_start)
    (hok : (copyPT old.as_pagetable (f + KSEG0) (List.range PTE_NUM)
      (as_zero_region (f + KSEG0)
        { s with fs := (alloc_kpage s).2.fs })).1 = KR.ok ()) :
    as_copy old s =
      (KR.ok (0, some { as_pagetable := f + KSEG0
                        as_regions_start := old.as_regions_start }),
       (copyPT old.as_pagetable (f + KSEG0) (List.range PTE_NUM)
         (as_zero_region (f + KSEG0)
           { s with fs := (alloc_kpage s).2.fs })).2) := by
  have hac := as_create_pop s f fl hch
  simp only [as_copy, hac]
  cases hr : old.as_regions_start with
  | nil => exact absurd hr hne
  | cons rg rest =>
    rw [hr] at hrg
    rw [hrg]
    rcases hcp : copyPT old.as_pagetable (f + KSEG0) (List.range PTE_NUM)
      (as_zero_region (f + KSEG0) { s with fs := (alloc_kpage s).2.fs })
      with ⟨r, s'⟩
    rw [hcp] at hok
    simp only at hok
    subst hok
    rfl

set_option maxRecDepth 4000 in
theorem as_copy_safe (old : addrspace) (s : VMState) (ch : List Nat)
    (hch : GoodFrees s.fs ch)
    (hfresh : ∀ f ∈ ch, ¬ UsedBy s old (f + KSEG0)) :
    AGREE (as_copy old s).2 s old := by
  cases ch with
  | nil =>
    have hz : s.fs.freeframe = 0 := hch.1
    rw [as_copy_root_fail old s hz]
    intro b hb o
    rfl
  | cons f fl =>
    obtain ⟨ha1, ha2, haGF, _⟩ := alloc_kpage_pop s f fl hch
    have hfreshf : ¬ UsedBy s old (f + KSEG0) := hfresh f (List.mem_cons_self f fl)
    have hfnotfl : f ∉ fl := (List.nodup_cons.mp hch.2.1).1
    have hac := as_create_pop s f fl hch
    have hAgS1 : AGREE (as_zero_region (f + KSEG0)
        { s with fs := (alloc_kpage s).2.fs }) s old := by
      intro b hb o
      have hbf : ¬(b = f + KSEG0) := fun he => hfreshf (he ▸ hb)
      simp [as_zero_region, hbf]
    simp only [as_copy, hac]
    cases hr : old.as_regions_start with
    | nil => exact hAgS1
    | cons rg rest =>
      cases hcr : copyRegions (rg :: rest) with
      | kpanic => exact hAgS1
      | ok rl =>
        have hAgPT := copyPT_safe old.as_pagetable (f + KSEG0) s old
          (List.range PTE_NUM)
          (as_zero_region (f + KSEG0) { s with fs := (alloc_kpage s).2.fs }) fl
          hAgS1 (Or.inl rfl)
          (fun i hi h => usedBy_table s old i hi h)
          (fun i hi h j hj hv => usedBy_frame s old i j hi h hj hv)
          haGF
          (fun f' hf' => hfresh f' (List.mem_cons_of_mem _ hf'))
          hfreshf
          (by intro f' hf' he
              exact hfnotfl ((by omega : f = f') ▸ hf'))
          (fun he => hfreshf (he ▸ (Or.inl rfl : UsedBy s old old.as_pagetable)))
        rcases hcp : copyPT old.as_pagetable (f + KSEG0) (List.range PTE_NUM)
          (as_zero_region (f + KSEG0) { s with fs := (alloc_kpage s).2.fs })
          with ⟨r, s'⟩
        rw [hcp] at hAgPT
        cases r with
        | kpanic => exact hAgPT
        | ok u => exact hAgPT

set_option maxRecDepth 4000 in
/-- C1.  For an address space old with a non-empty, well-formed region
list, enough free frames (neededFrames) all fresh for old, a successful
as_copy returns 0 and a new address space whose region list equals
old's value for value (the embedding's lists are immutable values, so
the C's freshly kmalloc'd nodes appear as an equal list) and whose
level-1 table is a fresh frame; every page old uses is byte-for-byte
unchanged; for every present level-1 entry of old the copy holds a
fresh (never used by old) second-level table whose entries mirror
old's: 0 where old's entry is invalid, and a fresh frame tagged
PTE_VALID whose PAGE_SIZE bytes equal the source frame's bytes where
old's entry is valid.  Consequently, overwriting any byte of a frame
mapped in the copy (Function.update at the copy's frame) leaves every
page old uses - in particular every frame mapped in the original -
unchanged. -/
theorem claim_C1 (old : addrspace) (s : VMState) (ch : List Nat)
    (hne : old.as_regions_start ≠ [])
    (hrg : ∀ rg ∈ old.as_regions_start, rg.as_vbase ≠ 0 ∧ rg.as_npages ≠ 0)
    (hch : GoodFrees s.fs ch)
    (hfresh : ∀ f ∈ ch, ¬ UsedBy s old (f + KSEG0))
    (hcnt : neededFrames s old ≤ ch.length) :
    ∃ f fl s', ch = f :: fl ∧
      as_copy old s =
        (KR.ok (0, some { as_pagetable := f + KSEG0
                          as_regions_start := old.as_regions_start }), s') ∧
      ¬ UsedBy s old (f + KSEG0) ∧
      (∀ b, UsedBy s old b → ∀ o, s'.mem b o = s.mem b o) ∧
      (∀ i ∈ List.range PTE_NUM,
        (s.mem old.as_pagetable (4 * i) = 0 →
          s'.mem (f + KSEG0) (4 * i) = 0) ∧
        (s.mem old.as_pagetable (4 * i) ≠ 0 →
          ∃ p, s'.mem (f + KSEG0) (4 * i) = p ∧ p ≠ 0 ∧ ¬ UsedBy s old p ∧
            ∀ j ∈ List.range PTE_NUM,
              (s.mem (s.mem old.as_pagetable (4 * i)) (4 * j) &&& PTE_VALID = 0 →
                s'.mem p (4 * j) = 0) ∧
              (s.mem (s.mem old.as_pagetable (4 * i)) (4 * j) &&& PTE_VALID ≠ 0 →
                ∃ q, s'.mem p (4 * j) = q + PTE_VALID ∧ q ≠ 0 ∧
                  ¬ UsedBy s old q ∧
                  (∀ o, s'.mem q o =
                    s.mem (pageFrame
                      (s.mem (s.mem old.as_pagetable (4 * i)) (4 * j))) o) ∧
                  (∀ w b, UsedBy s old b →
                    Function.update s'.mem q w b = s'.mem b)))) := by
  cases ch with
  | nil =>
    exfalso
    simp only [neededFrames, List.length_nil] at hcnt
    omega
  | cons f fl =>
    obtain ⟨ha1, ha2, haGF, _⟩ := alloc_kpage_pop s f fl hch
    have hfreshf : ¬ UsedBy s old (f + KSEG0) := hfresh f (List.mem_cons_self f fl)
    have hfnotfl : f ∉ fl := (List.nodup_cons.mp hch.2.1).1
    have hAgS1 : AGREE (as_zero_region (f + KSEG0)
        { s with fs := (alloc_kpage s).2.fs }) s old := by
      intro b hb o
      have hbf : ¬(b = f + KSEG0) := fun he => hfreshf (he ▸ hb)
      simp [as_zero_region, hbf]
    obtain ⟨d1, d2, d3, d4, d5, d6⟩ :=
      copyPT_spec old.as_pagetable (f + KSEG0) s old (List.range PTE_NUM)
        (as_zero_region (f + KSEG0) { s with fs := (alloc_kpage s).2.fs }) fl
        hAgS1 (Or.inl rfl)
        (fun i hi h => usedBy_table s old i hi h)
        (fun i hi h j hj hv => usedBy_frame s old i j hi h hj hv)
        haGF
        (fun f' hf' => hfresh f' (List.mem_cons_of_mem _ hf'))
        hfreshf
        (by intro f' hf' he
            exact hfnotfl ((by omega : f = f') ▸ hf'))
        (fun he => hfreshf (he ▸ (Or.inl rfl : UsedBy s old old.as_pagetable)))
        (List.nodup_range PTE_NUM)
        (by simp only [neededFrames, List.length_cons] at hcnt
            omega)
    have heq := as_copy_eq old s f fl hch hne (copyRegions_ok _ hrg) d1
    refine ⟨f, fl, _, rfl, heq, hfreshf, d2, ?_⟩
    intro i hi
    have hS1z : (as_zero_region (f + KSEG0)
        { s with fs := (alloc_kpage s).2.fs }).mem (f + KSEG0) (4 * i) = 0 := by
      simp [as_zero_region]
    obtain ⟨e1, e2⟩ := d4 i hi
    constructor
    · intro hz
      rw [e1 hz, hS1z]
    · intro hp
      obtain ⟨p0, hp0mem, hp0U, hp0slot, hp0inner⟩ := e2 hp
      refine ⟨p0 + KSEG0, hp0slot, by simp only [KSEG0]; omega, hp0U, ?_⟩
      intro j hj
      obtain ⟨g1, g2⟩ := hp0inner j hj
      refine ⟨g1, ?_⟩
      intro hval
      obtain ⟨q0, hq0mem, hq0U, hq0val, hq0cont⟩ := g2 hval
      refine ⟨q0 + KSEG0, hq0val, by simp only [KSEG0]; omega, hq0U, hq0cont, ?_⟩
      intro w b hb
      have hbne : b ≠ q0 + KSEG0 := fun he => hq0U (he ▸ hb)
      rw [Function.update_noteq hbne]

theorem usedBy_elim (s : VMState) (as : addrspace) (b : Nat)
    (h0 : b ≠ as.as_pagetable)
    (h1 : ∀ i, i < PTE_NUM → s.mem as.as_pagetable (4 * i) ≠ 0 →
      b ≠ s.mem as.as_pagetable (4 * i) ∧
      ∀ j, j < PTE_NUM →
        s.mem (s.mem as.as_pagetable (4 * i)) (4 * j) &&& PTE_VALID ≠ 0 →
        b ≠ pageFrame (s.mem (s.mem as.as_pagetable (4 * i)) (4 * j))) :
    ¬ UsedBy s as b := by
  rintro (hb | ⟨i, hi, hne, hb⟩ | ⟨i, hi, hne, j, hj, hv, hb⟩)
  · exact h0 hb
  · exact (h1 i (List.mem_range.mp hi) hne).1 hb
  · exact (h1 i (List.mem_range.mp hi) hne).2 j (List.mem_range.mp hj) hv hb

set_option maxRecDepth 100000 in
theorem claim_C1_witness :
    ∃ s', as_copy ⟨KSEG0 + 409600, [⟨16384, 2, 6⟩]⟩
        ⟨⟨fun i => if i = 1 then 8192 else if i = 2 then 12288 else 0, 0, 4096⟩,
          fun p q =>
            if p = KSEG0 + 409600 ∧ q = 0 then KSEG0 + 819200
            else if p = KSEG0 + 819200 ∧ q = 0 then KSEG0 + 1228801
            else if p = KSEG0 + 1228800 ∧ q = 0 then 77 else 0⟩ =
      (KR.ok (0, some { as_pagetable := 4096 + KSEG0
                        as_regions_start := [⟨16384, 2, 6⟩] }), s') := by
  obtain ⟨f, fl, s', hcons, heq, -, -, -⟩ :=
    claim_C1 ⟨KSEG0 + 409600, [⟨16384, 2, 6⟩]⟩
      ⟨⟨fun i => if i = 1 then 8192 else if i = 2 then 12288 else 0, 0, 4096⟩,
        fun p q =>
          if p = KSEG0 + 409600 ∧ q = 0 then KSEG0 + 819200
          else if p = KSEG0 + 819200 ∧ q = 0 then KSEG0 + 1228801
          else if p = KSEG0 + 1228800 ∧ q = 0 then 77 else 0⟩
      [4096, 8192, 12288]
      (by decide) (by decide) (by decide)
      (by
        intro f hf
        fin_cases hf <;>
        · apply usedBy_elim
          · decide
          · intro i hi hne
            by_cases h0 : i = 0
            · subst h0
              refine ⟨by decide, ?_⟩
              intro j hj hv
              by_cases hj0 : j = 0
              · subst hj0
                decide
              · exfalso
                have h4 : (4 : Nat) * j ≠ 0 := by omega
                simp [KSEG0, h4, PTE_VALID] at hv
            · exfalso
              have h4 : (4 : Nat) * i ≠ 0 := by omega
              simp [KSEG0, h4] at hne)
      (by decide)
  injection hcons with h1 h2
  subst h1
  exact ⟨s', heq⟩

set_option maxRecDepth 100000 in
/-- C2 counterexample.  The claim says an allocation failure during
as_copy returns the out-of-memory error to the caller as a recoverable
result and does not halt the kernel.  Concrete run refuting it: the
free list holds exactly one frame, old has one region and one present
level-1 slot.  as_create consumes the only frame for the new root
table; the first mid-copy allocation (the second-level table for slot
0) then gets 0 from alloc_kpages and the KASSERT(*nvaddr1 != 0) fires:
the result is a kernel panic, not ENOMEM. -/
theorem claim_C2_counterexample :
    (as_copy ⟨KSEG0 + 409600, [⟨4096, 1, 6⟩]⟩
      ⟨⟨fun _ => 0, 0, 4096⟩,
        fun p q => if p = KSEG0 + 409600 ∧ q = 0 then KSEG0 + 819200 else 0⟩).1
      = KR.kpanic := by
  decide

/-- C2 (amended).  Only the failure of the initial root-table
allocation (inside as_create) makes as_copy return ENOMEM, and then the
whole kernel state is returned untouched; an allocation failure later
in the copy instead fails a KASSERT and halts the kernel (see the
counterexample).  What the claim correctly says about the source
structure holds in every outcome - success, ENOMEM return, or the state
at the failed KASSERT: every page of old (its level-1 table, its
second-level tables, and every frame mapped valid) is byte-for-byte
unchanged.  Old's region list is a value in the embedding and is only
read, never written. -/
theorem claim_C2 (old : addrspace) (s : VMState) (ch : List Nat)
    (hch : GoodFrees s.fs ch)
    (hfresh : ∀ f ∈ ch, ¬ UsedBy s old (f + KSEG0)) :
    (s.fs.freeframe = 0 → as_copy old s = (KR.ok (ENOMEM, none), s)) ∧
    (∀ b, UsedBy s old b → ∀ o, (as_copy old s).2.mem b o = s.mem b o) :=
  ⟨fun hz => as_copy_root_fail old s hz, as_copy_safe old s ch hch hfresh⟩

theorem claim_C2_witness :
    (VMState.mk ⟨fun _ => 0, 0, 0⟩ (fun _ _ => 0)).fs.freeframe = 0 ∧
    as_copy ⟨4096, []⟩ ⟨⟨fun _ => 0, 0, 0⟩, fun _ _ => 0⟩ =
      (KR.ok (ENOMEM, none), ⟨⟨fun _ => 0, 0, 0⟩, fun _ _ => 0⟩) :=
  ⟨rfl,
    (claim_C2 ⟨4096, []⟩ ⟨⟨fun _ => 0, 0, 0⟩, fun _ _ => 0⟩ []
      (by decide)
      (fun f hf => absurd hf (List.not_mem_nil f))).1 rfl⟩
